import Mathlib

/-!
Verification of the core components of the daily-report repository against
its natural-language specification.

The Python source is shallowly embedded:
* Python `dict` becomes an association list of writes in order; lookup
  returns the value of the last write (`dget`), and the key view keeps
  first-insertion order (`dkeys`), matching CPython semantics.
* Python strings become `String` / `List Char`; `str.lower` becomes a
  character-wise `Char.toLower` (exact on the ASCII + CJK data the program
  handles, since CJK characters are fixed by lowering).
* Python `set` results become `Finset String` (CPython set iteration order
  is unspecified, and no claim depends on it).
* Regular-expression matching in the source uses only alternations of
  escaped literals with word-boundary anchors; it is embedded as a
  leftmost, first-alternative, non-overlapping literal scan with explicit
  boundary checks, the exact semantics of those patterns under `re`.
* Exceptions become `Except`; fallible external calls become function
  parameters returning `Except`.
-/

namespace DailyReport

/-! ### Python dict model -/

/-- A Python dict as the list of writes in order; later writes win. -/
abbrev Dict (β : Type) := List (String × β)

/-- `d[k]` lookup: value of the last write at `k`, if any. -/
def dget {β : Type} (d : Dict β) (k : String) : Option β :=
  (d.reverse.find? (fun p => p.1 == k)).map (·.2)

/-- Remove later duplicates, keeping first occurrences in order
(`seen` accumulates the keys already kept). -/
def dedupGo (seen : List String) : List String → List String
  | [] => []
  | k :: rest =>
    if k ∈ seen then dedupGo seen rest
    else k :: dedupGo (k :: seen) rest

/-- `d.keys()`: keys in first-insertion order. -/
def dkeys {β : Type} (d : Dict β) : List String :=
  dedupGo [] (d.map Prod.fst)

theorem mem_dedupGo {x : String} :
    ∀ {l seen : List String}, x ∈ dedupGo seen l ↔ x ∈ l ∧ x ∉ seen := by
  intro l
  induction l with
  | nil => intro seen; simp [dedupGo]
  | cons k rest ih =>
    intro seen
    rw [dedupGo]
    by_cases hk : k ∈ seen
    · rw [if_pos hk, ih]
      constructor
      · rintro ⟨hx, hs⟩
        exact ⟨List.mem_cons_of_mem _ hx, hs⟩
      · rintro ⟨hx, hs⟩
        rcases List.mem_cons.mp hx with rfl | hx'
        · exact absurd hk hs
        · exact ⟨hx', hs⟩
    · rw [if_neg hk]
      constructor
      · intro hmem
        rcases List.mem_cons.mp hmem with rfl | hx'
        · exact ⟨List.mem_cons_self _ _, hk⟩
        · have h2 := ih.mp hx'
          exact ⟨List.mem_cons_of_mem _ h2.1,
            fun hc => h2.2 (List.mem_cons_of_mem _ hc)⟩
      · rintro ⟨hx, hs⟩
        rcases List.mem_cons.mp hx with rfl | hx'
        · exact List.mem_cons_self _ _
        · by_cases hxk : x = k
          · subst hxk; exact List.mem_cons_self _ _
          · refine List.mem_cons_of_mem _ (ih.mpr ⟨hx', ?_⟩)
            intro hc
            rcases List.mem_cons.mp hc with h1 | h2
            · exact hxk h1
            · exact hs h2

theorem mem_dkeys {β : Type} {d : Dict β} {k : String} :
    k ∈ dkeys d ↔ k ∈ d.map Prod.fst := by
  unfold dkeys
  rw [mem_dedupGo]
  simp

theorem dget_append {β : Type} (d e : Dict β) (k : String) :
    dget (d ++ e) k = (dget e k).orElse (fun _ => dget d k) := by
  unfold dget
  rw [List.reverse_append, List.find?_append]
  cases h : List.find? (fun p => p.1 == k) e.reverse <;>
    simp [Option.orElse, Option.map]

theorem dget_single {β : Type} (k k' : String) (v : β) :
    dget [(k, v)] k' = if k = k' then some v else none := by
  unfold dget
  by_cases h : k = k'
  · simp [h, List.find?]
  · have hb : (k == k') = false := by simp [h]
    simp [List.find?, hb, h]

theorem dget_isSome_iff_mem {β : Type} {d : Dict β} {k : String} :
    (dget d k).isSome ↔ k ∈ d.map Prod.fst := by
  unfold dget
  cases h : List.find? (fun p => p.1 == k) d.reverse with
  | none =>
    simp only [Option.map_none', Option.isSome_none, Bool.false_eq_true, false_iff,
      List.mem_map, not_exists]
    rintro p ⟨hp, he⟩
    have := List.find?_eq_none.mp h p (List.mem_reverse.mpr hp)
    simp [he] at this
  | some p =>
    have hmem := List.mem_reverse.mp (List.mem_of_find?_eq_some h)
    have hpk : p.1 = k := by
      have := List.find?_some h
      simpa using this
    simp only [Option.map_some', Option.isSome_some, List.mem_map]
    exact ⟨fun _ => ⟨p, hmem, hpk⟩, fun _ => trivial⟩

/-! ### Entity catalog (`entities.yaml`) and `EntityMatcher._load_entities` -/

/-- `str.lower` (character-wise; exact on the ASCII/CJK data handled). -/
def pylower (s : String) : String := ⟨s.data.map Char.toLower⟩

/-- One company entry of the catalog.  `name` is `Option` because
`company["name"]` raises when the key is missing, while `ticker` and
`aliases` are read with `.get` defaults. -/
structure Company where
  name : Option String
  ticker : Option String
  aliases : List String
deriving Repr, DecidableEq

/-- The `listed` / `unlisted` categories of one industry. -/
structure IndustryCats where
  listed : List Company
  unlisted : List Company
deriving Repr, DecidableEq

/-- A `key_people` entry. -/
structure Person where
  name : Option String
  entities : List String
  aliases : List String
deriving Repr, DecidableEq

/-- An `institutions` entry. -/
structure Institution where
  name : Option String
  aliases : List String
deriving Repr, DecidableEq

/-- The raw entity catalog consumed at startup. -/
structure Catalog where
  entities : List (String × IndustryCats)
  key_people : List Person
  institutions : List Institution
deriving Repr, DecidableEq

/-- The fatal configuration error with which `AliasIndex` construction
fails on a malformed catalog (a required `name` key missing); it models
the uncaught lookup error `_load_entities` raises there. -/
inductive ConfigError where
  | missingName : ConfigError
deriving Repr, DecidableEq

/-- A `ticker_to_info` value: `{name, industry}`. -/
structure TickerInfo where
  name : String
  industry : String
deriving Repr, DecidableEq

/-- An `entity_to_info` value; companies carry `industry`/`ticker`
(`ticker` is `none` for unlisted entries, mirroring `"ticker": None`),
people and institutions carry their own shapes. -/
inductive EntityInfo where
  | company (industry : String) (ticker : Option String) (isListed : Bool)
  | person (relatedEntities : List String)
  | institution
deriving Repr, DecidableEq

/-- `info["industry"]` when present (`"industry" in info` test). -/
def EntityInfo.industryKey : EntityInfo → Option String
  | .company ind _ _ => some ind
  | _ => none

/-- The lookup structures built by `_load_entities` (the spec's
`AliasIndex`). -/
structure Matcher where
  ticker_to_info : Dict TickerInfo
  entity_to_info : Dict EntityInfo
  alias_to_entity : Dict String
  alias_to_ticker : Dict String
  industries : Finset String
deriving DecidableEq

def emptyMatcher : Matcher := ⟨[], [], [], [], ∅⟩

/-- Body of the alias loop of a listed company (lines 55-58): register
the alias for the entity and, when the company has a ticker, for the
ticker. -/
def listedAliasStep (name ticker : String) (st : Matcher) (a : String) : Matcher :=
  let st := { st with alias_to_entity :=
    st.alias_to_entity ++ [(pylower a, name)] }
  if ticker ≠ "" then
    { st with alias_to_ticker :=
      st.alias_to_ticker ++ [(pylower a, ticker)] }
  else st

/-- Body of the plain alias loops (unlisted companies, people,
institutions): register the alias for the entity. -/
def ateStep (name : String) (st : Matcher) (a : String) : Matcher :=
  { st with alias_to_entity := st.alias_to_entity ++ [(pylower a, name)] }

/-- Processing of one listed company (lines 35-58 of
`entity_matcher.py`). -/
def loadListedCompany (industry : String) (st : Matcher) (c : Company) :
    Except ConfigError Matcher :=
  match c.name with
  | none => .error .missingName
  | some name =>
    let ticker := c.ticker.getD ""
    let st :=
      if ticker ≠ "" then
        { st with
          ticker_to_info := st.ticker_to_info ++ [(ticker, ⟨name, industry⟩)],
          alias_to_ticker := st.alias_to_ticker ++
            [(pylower name, ticker), (pylower ticker, ticker)] }
      else st
    let st := { st with entity_to_info :=
      st.entity_to_info ++ [(name, EntityInfo.company industry (some ticker) true)] }
    let st := c.aliases.foldl (listedAliasStep name ticker) st
    .ok st

/-- Processing of one unlisted company (lines 61-73). -/
def loadUnlistedCompany (industry : String) (st : Matcher) (c : Company) :
    Except ConfigError Matcher :=
  match c.name with
  | none => .error .missingName
  | some name =>
    let st := { st with entity_to_info :=
      st.entity_to_info ++ [(name, EntityInfo.company industry none false)] }
    let st := { st with alias_to_entity :=
      st.alias_to_entity ++ [(pylower name, name)] }
    let st := c.aliases.foldl (ateStep name) st
    .ok st

/-- Processing of one `key_people` entry (lines 76-89). -/
def loadPerson (st : Matcher) (p : Person) : Except ConfigError Matcher :=
  match p.name with
  | none => .error .missingName
  | some name =>
    let st := { st with alias_to_entity :=
      st.alias_to_entity ++ [(pylower name, name)] }
    let st := p.aliases.foldl (ateStep name) st
    let st := { st with entity_to_info :=
      st.entity_to_info ++ [(name, EntityInfo.person p.entities)] }
    .ok st

/-- Processing of one `institutions` entry (lines 92-101). -/
def loadInstitution (st : Matcher) (i : Institution) :
    Except ConfigError Matcher :=
  match i.name with
  | none => .error .missingName
  | some name =>
    let st := { st with entity_to_info :=
      st.entity_to_info ++ [(name, EntityInfo.institution)] }
    let st := { st with alias_to_entity :=
      st.alias_to_entity ++ [(pylower name, name)] }
    let st := i.aliases.foldl (ateStep name) st
    .ok st

/-- Sequencing of fallible per-entry processing, stopping at the first
error, as the raising Python loop does. -/
def loadList {α : Type} (f : Matcher → α → Except ConfigError Matcher) :
    Matcher → List α → Except ConfigError Matcher
  | st, [] => .ok st
  | st, x :: xs =>
    match f st x with
    | .error e => .error e
    | .ok st' => loadList f st' xs

/-- Processing of one industry: record the industry, then its listed and
unlisted companies (lines 31-73). -/
def loadIndustry (st : Matcher) (ic : String × IndustryCats) :
    Except ConfigError Matcher :=
  let st := { st with industries := insert ic.1 st.industries }
  match loadList (loadListedCompany ic.1) st ic.2.listed with
  | .error e => .error e
  | .ok st' => loadList (loadUnlistedCompany ic.1) st' ic.2.unlisted

/-- `_load_entities` up to pattern building: builds every lookup
dictionary from the catalog, failing on the first missing `name`. -/
def loadEntities (cat : Catalog) : Except ConfigError Matcher :=
  match loadList loadIndustry emptyMatcher cat.entities with
  | .error e => .error e
  | .ok st =>
    match loadList loadPerson st cat.key_people with
    | .error e => .error e
    | .ok st' => loadList loadInstitution st' cat.institutions

/-- A catalog is well-formed when every entry carries its required
`name` key. -/
def Catalog.wellFormed (cat : Catalog) : Bool :=
  cat.entities.all
    (fun ic => ic.2.listed.all (fun c => c.name.isSome) &&
      ic.2.unlisted.all (fun c => c.name.isSome)) &&
  cat.key_people.all (fun p => p.name.isSome) &&
  cat.institutions.all (fun i => i.name.isSome)

theorem loadList_char {α : Type} (f : Matcher → α → Except ConfigError Matcher)
    (wf : α → Bool)
    (hf : ∀ st x, (wf x → ∃ st', f st x = .ok st') ∧
      (¬ wf x → f st x = .error .missingName)) :
    ∀ xs st, (xs.all wf → ∃ st', loadList f st xs = .ok st') ∧
      (¬ xs.all wf → loadList f st xs = .error .missingName) := by
  intro xs
  induction xs with
  | nil => intro st; exact ⟨fun _ => ⟨st, rfl⟩, fun h => absurd rfl h⟩
  | cons x xs ih =>
    intro st
    by_cases hx : wf x
    · obtain ⟨st', hst'⟩ := (hf st x).1 hx
      constructor
      · intro hall
        simp only [List.all_cons, hx, Bool.true_and] at hall
        obtain ⟨st'', h2⟩ := (ih st').1 hall
        exact ⟨st'', by simp [loadList, hst', h2]⟩
      · intro hall
        simp only [List.all_cons, hx, Bool.true_and] at hall
        have h2 := (ih st').2 hall
        simp [loadList, hst', h2]
    · have herr := (hf st x).2 hx
      constructor
      · intro hall
        simp [List.all_cons, hx] at hall
      · intro _
        simp [loadList, herr]

theorem loadListedCompany_char (industry : String) :
    ∀ st c, ((fun c : Company => c.name.isSome) c →
        ∃ st', loadListedCompany industry st c = .ok st') ∧
      (¬ (fun c : Company => c.name.isSome) c →
        loadListedCompany industry st c = .error .missingName) := by
  intro st c
  cases h : c.name with
  | none =>
    refine ⟨fun hw => by simp [h] at hw, fun _ => ?_⟩
    simp only [loadListedCompany, h]
  | some n =>
    refine ⟨fun _ => ?_, fun hw => by simp [h] at hw⟩
    simp only [loadListedCompany, h]
    exact ⟨_, rfl⟩

theorem loadUnlistedCompany_char (industry : String) :
    ∀ st c, ((fun c : Company => c.name.isSome) c →
        ∃ st', loadUnlistedCompany industry st c = .ok st') ∧
      (¬ (fun c : Company => c.name.isSome) c →
        loadUnlistedCompany industry st c = .error .missingName) := by
  intro st c
  cases h : c.name with
  | none =>
    refine ⟨fun hw => by simp [h] at hw, fun _ => ?_⟩
    simp only [loadUnlistedCompany, h]
  | some n =>
    refine ⟨fun _ => ?_, fun hw => by simp [h] at hw⟩
    simp only [loadUnlistedCompany, h]
    exact ⟨_, rfl⟩

theorem loadPerson_char :
    ∀ st (p : Person), ((fun p : Person => p.name.isSome) p →
        ∃ st', loadPerson st p = .ok st') ∧
      (¬ (fun p : Person => p.name.isSome) p →
        loadPerson st p = .error .missingName) := by
  intro st p
  cases h : p.name with
  | none =>
    refine ⟨fun hw => by simp [h] at hw, fun _ => ?_⟩
    simp only [loadPerson, h]
  | some n =>
    refine ⟨fun _ => ?_, fun hw => by simp [h] at hw⟩
    simp only [loadPerson, h]
    exact ⟨_, rfl⟩

theorem loadInstitution_char :
    ∀ st (i : Institution), ((fun i : Institution => i.name.isSome) i →
        ∃ st', loadInstitution st i = .ok st') ∧
      (¬ (fun i : Institution => i.name.isSome) i →
        loadInstitution st i = .error .missingName) := by
  intro st i
  cases h : i.name with
  | none =>
    refine ⟨fun hw => by simp [h] at hw, fun _ => ?_⟩
    simp only [loadInstitution, h]
  | some n =>
    refine ⟨fun _ => ?_, fun hw => by simp [h] at hw⟩
    simp only [loadInstitution, h]
    exact ⟨_, rfl⟩

theorem loadIndustry_char :
    ∀ st (ic : String × IndustryCats),
      ((fun ic : String × IndustryCats =>
          ic.2.listed.all (fun c => c.name.isSome) &&
            ic.2.unlisted.all (fun c => c.name.isSome)) ic →
        ∃ st', loadIndustry st ic = .ok st') ∧
      (¬ (fun ic : String × IndustryCats =>
          ic.2.listed.all (fun c => c.name.isSome) &&
            ic.2.unlisted.all (fun c => c.name.isSome)) ic →
        loadIndustry st ic = .error .missingName) := by
  intro st ic
  have hl := loadList_char (loadListedCompany ic.1) _
    (loadListedCompany_char ic.1) ic.2.listed
    { st with industries := insert ic.1 st.industries }
  by_cases h1 : ic.2.listed.all (fun c => c.name.isSome)
  · obtain ⟨st', hst'⟩ := hl.1 h1
    have hu := loadList_char (loadUnlistedCompany ic.1) _
      (loadUnlistedCompany_char ic.1) ic.2.unlisted st'
    by_cases h2 : ic.2.unlisted.all (fun c => c.name.isSome)
    · obtain ⟨st'', h2'⟩ := hu.1 h2
      refine ⟨fun _ => ?_, fun hw => by simp [h1, h2] at hw⟩
      refine ⟨st'', ?_⟩
      simp only [loadIndustry, hst']
      exact h2'
    · refine ⟨fun hw => by simp [h1, h2] at hw, fun _ => ?_⟩
      simp only [loadIndustry, hst']
      exact hu.2 h2
  · refine ⟨fun hw => by simp [h1] at hw, fun _ => ?_⟩
    simp only [loadIndustry, hl.2 h1]

/-- Success / failure characterization of `_load_entities`. -/
theorem loadEntities_char (cat : Catalog) :
    (cat.wellFormed → ∃ m, loadEntities cat = .ok m) ∧
    (¬ cat.wellFormed → loadEntities cat = .error ConfigError.missingName) := by
  have he := loadList_char loadIndustry _ loadIndustry_char cat.entities emptyMatcher
  by_cases h1 : cat.entities.all
      (fun ic => ic.2.listed.all (fun c => c.name.isSome) &&
        ic.2.unlisted.all (fun c => c.name.isSome))
  · obtain ⟨st1, h1'⟩ := he.1 h1
    have hp := loadList_char loadPerson _ loadPerson_char cat.key_people st1
    by_cases h2 : cat.key_people.all (fun p => p.name.isSome)
    · obtain ⟨st2, h2'⟩ := hp.1 h2
      have hi := loadList_char loadInstitution _ loadInstitution_char
        cat.institutions st2
      by_cases h3 : cat.institutions.all (fun i => i.name.isSome)
      · obtain ⟨st3, h3'⟩ := hi.1 h3
        refine ⟨fun _ => ⟨st3, ?_⟩,
          fun hw => by simp [Catalog.wellFormed, h1, h2, h3] at hw⟩
        simp only [loadEntities, h1', h2']
        exact h3'
      · refine ⟨fun hw => by simp [Catalog.wellFormed, h1, h2, h3] at hw,
          fun _ => ?_⟩
        simp only [loadEntities, h1', h2']
        exact hi.2 h3
    · refine ⟨fun hw => by simp [Catalog.wellFormed, h1, h2] at hw, fun _ => ?_⟩
      simp only [loadEntities, h1', hp.2 h2]
  · refine ⟨fun hw => by simp [Catalog.wellFormed, h1] at hw, fun _ => ?_⟩
    simp only [loadEntities, he.2 h1]

/-- C9: for every malformed catalog (an entry missing its required
`name` key), `AliasIndex` construction fails with `ConfigError`, and
with no other kind of error; on well-formed catalogs it succeeds.  The
error type of the embedded loader is `ConfigError` itself, so no other
failure mode exists. -/
theorem C9_malformed_catalog_config_error (cat : Catalog) :
    (cat.wellFormed → ∃ m, loadEntities cat = .ok m) ∧
    (¬ cat.wellFormed → loadEntities cat = .error ConfigError.missingName) :=
  loadEntities_char cat

/-- A small well-formed catalog used as a concrete witness. -/
def wfCat : Catalog :=
  ⟨[("ai", ⟨[⟨some "NVIDIA", some "NVDA", ["nvidia"]⟩], []⟩)], [], []⟩

/-- A malformed catalog: a listed entry without a `name`. -/
def badCat : Catalog :=
  ⟨[("ai", ⟨[⟨none, some "NVDA", []⟩], []⟩)], [], []⟩

/-- Witness for C9 at concrete catalogs. -/
theorem C9_malformed_catalog_config_error_witness :
    (∃ m, loadEntities wfCat = .ok m) ∧
      loadEntities badCat = .error ConfigError.missingName :=
  ⟨(C9_malformed_catalog_config_error wfCat).1 (by decide),
    (C9_malformed_catalog_config_error badCat).2 (by decide)⟩

/-! ### Pattern building and matching (`_build_patterns`, `find_matches`) -/

/-- A CJK ideograph: the `[一-鿿]` class of `_build_patterns`. -/
def isCJK (c : Char) : Bool := 0x4e00 ≤ c.toNat && c.toNat ≤ 0x9fff

/-- A regex word character (`\w`) over the scripts the program handles:
ASCII alphanumerics, underscore, and CJK ideographs (Unicode `\w`
includes CJK, which is what makes `\b` anchors script-aware). -/
def wordChar (c : Char) : Bool := c.isAlphanum || c == '_' || isCJK c

/-- One alternative of the compiled entity pattern: the alias literal,
with word-boundary anchors unless the alias contains CJK.  `re.escape`
only quotes metacharacters, so an escaped alias matches exactly its
literal self and is embedded as the literal. -/
structure Alt where
  lit : List Char
  bounded : Bool
deriving Repr, DecidableEq

/-- `_build_patterns` lines 106-127: `alias_to_entity` keys sorted by
descending length, single-character aliases dropped, boundary anchors
added for aliases without CJK characters. -/
def buildAlts (m : Matcher) : List Alt :=
  let all_aliases := List.insertionSort
    (fun a b : String => b.length ≤ a.length) (dkeys m.alias_to_entity)
  let escaped := all_aliases.filter (fun a => 2 ≤ a.length)
  escaped.map (fun a => ⟨a.data, !a.data.any isCJK⟩)

/-- Whether position `i` of `t` holds a word character (out of range:
no). -/
def isWordAt (t : List Char) (i : Nat) : Bool := wordChar (t.getD i ' ')

/-- `\b` at position `i`: exactly one of the two neighbouring positions
holds a word character. -/
def boundaryAt (t : List Char) (i : Nat) : Bool :=
  Bool.xor (decide (0 < i) && isWordAt t (i - 1)) (isWordAt t i)

/-- The literal `lit` occurs in `t` at position `i`. -/
def litMatchAt (t : List Char) (i : Nat) (lit : List Char) : Bool :=
  (t.drop i).take lit.length == lit

/-- One pattern alternative matches `t` at `i`: the literal occurs and,
for anchored alternatives, both word boundaries hold. -/
def altMatchAt (t : List Char) (i : Nat) (a : Alt) : Bool :=
  litMatchAt t i a.lit &&
    (!a.bounded || (boundaryAt t i && boundaryAt t (i + a.lit.length)))

/-- The first alternative matching at `i` — `re` tries alternation
branches in pattern order. -/
def firstAlt (alts : List Alt) (t : List Char) (i : Nat) : Option Alt :=
  alts.find? (altMatchAt t i)

/-- Fuel-driven worker for the entity-pattern scan; `fuel` bounds the
number of remaining scan positions. -/
def scanGo (alts : List Alt) (t : List Char) : Nat → Nat → List (Nat × Alt)
  | 0, _ => []
  | fuel + 1, i =>
    if i < t.length then
      match firstAlt alts t i with
      | some a => (i, a) :: scanGo alts t fuel (i + max 1 a.lit.length)
      | none => scanGo alts t fuel (i + 1)
    else []

theorem scanGo_congr (alts : List Alt) (t : List Char) :
    ∀ f1 i f2, t.length - i ≤ f1 → t.length - i ≤ f2 →
      scanGo alts t f1 i = scanGo alts t f2 i := by
  intro f1
  induction f1 with
  | zero =>
    intro i f2 h1 _
    cases f2 with
    | zero => rfl
    | succ f2 =>
      rw [scanGo, scanGo, if_neg (by omega)]
  | succ f1 ih =>
    intro i f2 h1 h2
    cases f2 with
    | zero =>
      rw [scanGo, scanGo, if_neg (by omega)]
    | succ f2 =>
      rw [scanGo, scanGo]
      by_cases hp : i < t.length
      · rw [if_pos hp, if_pos hp]
        cases hfa : firstAlt alts t i with
        | some a =>
          have h3 : 1 ≤ max 1 a.lit.length := Nat.le_max_left _ _
          show (i, a) :: scanGo alts t f1 (i + max 1 a.lit.length) =
            (i, a) :: scanGo alts t f2 (i + max 1 a.lit.length)
          rw [ih (i + max 1 a.lit.length) f2 (by omega) (by omega)]
        | none =>
          show scanGo alts t f1 (i + 1) = scanGo alts t f2 (i + 1)
          rw [ih (i + 1) f2 (by omega) (by omega)]
      · rw [if_neg hp, if_neg hp]

/-- `finditer`: leftmost, non-overlapping scan; after a match the scan
resumes at its end. -/
def scanFrom (alts : List Alt) (t : List Char) (i : Nat) : List (Nat × Alt) :=
  scanGo alts t (t.length - i) i

/-- The recursion equation of the scan. -/
theorem scanFrom_eq (alts : List Alt) (t : List Char) (i : Nat) :
    scanFrom alts t i =
      if i < t.length then
        match firstAlt alts t i with
        | some a => (i, a) :: scanFrom alts t (i + max 1 a.lit.length)
        | none => scanFrom alts t (i + 1)
      else [] := by
  unfold scanFrom
  by_cases hp : i < t.length
  · have hlen : t.length - i = (t.length - i - 1) + 1 := by omega
    rw [hlen, scanGo, if_pos hp]
    rw [if_pos hp]
    cases hfa : firstAlt alts t i with
    | some a =>
      have h3 : 1 ≤ max 1 a.lit.length := Nat.le_max_left _ _
      show (i, a) :: scanGo alts t (t.length - i - 1) (i + max 1 a.lit.length) =
        (i, a) :: scanGo alts t (t.length - (i + max 1 a.lit.length))
          (i + max 1 a.lit.length)
      rw [scanGo_congr alts t (t.length - i - 1) (i + max 1 a.lit.length)
        (t.length - (i + max 1 a.lit.length)) (by omega) (by omega)]
    | none =>
      show scanGo alts t (t.length - i - 1) (i + 1) =
        scanGo alts t (t.length - (i + 1)) (i + 1)
      rw [scanGo_congr alts t (t.length - i - 1) (i + 1)
        (t.length - (i + 1)) (by omega) (by omega)]
  · rw [if_neg hp]
    cases hn : t.length - i with
    | zero => rfl
    | succ f => omega

/-- Prefix class `[\s\$\(\|]` of the ticker pattern. -/
def tickerPre (c : Char) : Bool :=
  c.isWhitespace || c == '$' || c == '(' || c == '|'

/-- Suffix class `[\s\)\|\:\,\.]` of the ticker pattern. -/
def tickerSuf (c : Char) : Bool :=
  c.isWhitespace || c == ')' || c == '|' || c == ':' || c == ',' || c == '.'

/-- Case-insensitive literal occurrence (the ticker pattern is compiled
with `IGNORECASE` over the original text). -/
def ciMatchAt (t : List Char) (i : Nat) (lit : List Char) : Bool :=
  ((t.drop i).take lit.length).map Char.toLower == lit.map Char.toLower

/-- Ticker alternation: `ticker_to_info` keys sorted by descending
length (lines 130-136). -/
def tickerAlts (m : Matcher) : List String :=
  List.insertionSort (fun a b : String => b.length ≤ a.length)
    (dkeys m.ticker_to_info)

/-- The capture group plus suffix of the ticker pattern at position `q`:
the first ticker alternative matching case-insensitively and followed by
a suffix-class character or the end of text.  Returns the alternative
and the end of the whole match (the suffix character is consumed). -/
def tickerGroupAt (ticks : List String) (t : List Char) (q : Nat) :
    Option (String × Nat) :=
  ticks.findSome? (fun tk =>
    if ciMatchAt t q tk.data then
      let r := q + tk.length
      if r < t.length then
        if tickerSuf (t.getD r ' ') then some (tk, r + 1) else none
      else some (tk, r)
    else none)

/-- The full ticker pattern at scan position `p`: the zero-width `^`
prefix branch first (position 0 only), then the one-character prefix
class, which consumes the character at `p`.  Returns the matched
alternative, the group position and the match end. -/
def tickerMatchAt (ticks : List String) (t : List Char) (p : Nat) :
    Option (String × Nat × Nat) :=
  let viaStart : Option (String × Nat × Nat) :=
    if p = 0 then (tickerGroupAt ticks t 0).map (fun r => (r.1, 0, r.2))
    else none
  match viaStart with
  | some r => some r
  | none =>
    if p < t.length && tickerPre (t.getD p ' ') then
      (tickerGroupAt ticks t (p + 1)).map (fun r => (r.1, p + 1, r.2))
    else none

/-- Fuel-driven worker for the ticker-pattern scan. -/
def tickerScanGo (ticks : List String) (t : List Char) :
    Nat → Nat → List (String × Nat)
  | 0, _ => []
  | fuel + 1, p =>
    if p < t.length then
      match tickerMatchAt ticks t p with
      | some (tk, q, e) => (tk, q) :: tickerScanGo ticks t fuel (max e (p + 1))
      | none => tickerScanGo ticks t fuel (p + 1)
    else []

/-- `finditer` of the ticker pattern: emits (alternative, group
position) pairs, resuming after each match end. -/
def tickerScan (ticks : List String) (t : List Char) (p : Nat) :
    List (String × Nat) :=
  tickerScanGo ticks t (t.length - p) p

/-- The result triple of `find_matches`; the source returns the three
accumulated sets as lists in unspecified set-iteration order. -/
structure ResolveResult where
  tickers : Finset String
  entities : Finset String
  industries : Finset String
deriving DecidableEq

def emptyResolve : ResolveResult := ⟨∅, ∅, ∅⟩

def toUpperStr (l : List Char) : String := ⟨l.map Char.toUpper⟩

/-- Processing of one ticker-pattern match (lines 161-167):
`match.group(1).upper()` looked up in `ticker_to_info`. -/
def tickerStep (m : Matcher) (t : List Char) (acc : ResolveResult)
    (hit : String × Nat) : ResolveResult :=
  let gtext := (t.drop hit.2).take hit.1.length
  let ticker := toUpperStr gtext
  match dget m.ticker_to_info ticker with
  | some info =>
    { tickers := insert ticker acc.tickers,
      entities := insert info.name acc.entities,
      industries := insert info.industry acc.industries }
  | none => acc

/-- Processing of one entity-pattern match (lines 171-185): the matched
text (already lowercase) looked up in `alias_to_entity`, then
`alias_to_ticker` and `entity_to_info`. -/
def aliasStep (m : Matcher) (acc : ResolveResult) (hit : Nat × Alt) :
    ResolveResult :=
  let matched : String := ⟨hit.2.lit⟩
  match dget m.alias_to_entity matched with
  | some ename =>
    let acc := { acc with entities := insert ename acc.entities }
    let acc :=
      match dget m.alias_to_ticker matched with
      | some tk => { acc with tickers := insert tk acc.tickers }
      | none => acc
    match (dget m.entity_to_info ename).bind EntityInfo.industryKey with
    | some ind => { acc with industries := insert ind acc.industries }
    | none => acc
  | none => acc

/-- `find_matches` (lines 140-187): empty text short-circuits; the
ticker pattern runs over the original text, the entity pattern over the
lowercased text. -/
def findMatches (m : Matcher) (text : String) : ResolveResult :=
  if text = "" then emptyResolve
  else
    let acc := (tickerScan (tickerAlts m) text.data 0).foldl
      (tickerStep m text.data) emptyResolve
    (scanFrom (buildAlts m) (pylower text).data 0).foldl (aliasStep m) acc

/-! ### Scan lemmas -/

theorem pairwise_mem_rel {α : Type} {R : α → α → Prop} :
    ∀ {l : List α}, l.Pairwise R → ∀ {x y : α}, x ∈ l → y ∈ l →
      x = y ∨ R x y ∨ R y x := by
  intro l hl
  induction hl with
  | nil => intro x y hx _; simp at hx
  | cons hr _ ih =>
    intro x y hx hy
    rcases List.mem_cons.mp hx with rfl | hx'
    · rcases List.mem_cons.mp hy with rfl | hy'
      · exact Or.inl rfl
      · exact Or.inr (Or.inl (hr _ hy'))
    · rcases List.mem_cons.mp hy with rfl | hy'
      · exact Or.inr (Or.inr (hr _ hx'))
      · exact ih hx' hy'

theorem scanFrom_lb (alts : List Alt) (t : List Char) :
    ∀ p i a, (i, a) ∈ scanFrom alts t p → p ≤ i := by
  have key : ∀ n p i a, t.length - p ≤ n →
      (i, a) ∈ scanFrom alts t p → p ≤ i := by
    intro n
    induction n with
    | zero =>
      intro p i a hn hmem
      rw [scanFrom_eq, if_neg (by omega)] at hmem
      simp at hmem
    | succ n ih =>
      intro p i a hn hmem
      rw [scanFrom_eq] at hmem
      by_cases hp : p < t.length
      · rw [if_pos hp] at hmem
        cases hfa : firstAlt alts t p with
        | some x =>
          rw [hfa] at hmem
          rcases List.mem_cons.mp hmem with heq | htail
          · rw [Prod.mk.injEq] at heq
            exact le_of_eq heq.1.symm
          · have h1 : 1 ≤ max 1 x.lit.length := Nat.le_max_left _ _
            have := ih (p + max 1 x.lit.length) i a (by omega) htail
            omega
        | none =>
          rw [hfa] at hmem
          have := ih (p + 1) i a (by omega) hmem
          omega
      · rw [if_neg hp] at hmem
        simp at hmem
  intro p i a hmem
  exact key (t.length - p) p i a le_rfl hmem

theorem scanFrom_sound (alts : List Alt) (t : List Char) :
    ∀ p i a, (i, a) ∈ scanFrom alts t p → firstAlt alts t i = some a := by
  have key : ∀ n p i a, t.length - p ≤ n →
      (i, a) ∈ scanFrom alts t p → firstAlt alts t i = some a := by
    intro n
    induction n with
    | zero =>
      intro p i a hn hmem
      rw [scanFrom_eq, if_neg (by omega)] at hmem
      simp at hmem
    | succ n ih =>
      intro p i a hn hmem
      rw [scanFrom_eq] at hmem
      by_cases hp : p < t.length
      · rw [if_pos hp] at hmem
        cases hfa : firstAlt alts t p with
        | some x =>
          rw [hfa] at hmem
          rcases List.mem_cons.mp hmem with heq | htail
          · rw [Prod.mk.injEq] at heq
            rw [heq.1, heq.2]
            exact hfa
          · have h1 : 1 ≤ max 1 x.lit.length := Nat.le_max_left _ _
            exact ih (p + max 1 x.lit.length) i a (by omega) htail
        | none =>
          rw [hfa] at hmem
          exact ih (p + 1) i a (by omega) hmem
      · rw [if_neg hp] at hmem
        simp at hmem
  intro p i a hmem
  exact key (t.length - p) p i a le_rfl hmem

theorem scanFrom_pairwise (alts : List Alt) (t : List Char) :
    ∀ p, (scanFrom alts t p).Pairwise
      (fun x y => x.1 + max 1 x.2.lit.length ≤ y.1) := by
  have key : ∀ n p, t.length - p ≤ n → (scanFrom alts t p).Pairwise
      (fun x y => x.1 + max 1 x.2.lit.length ≤ y.1) := by
    intro n
    induction n with
    | zero =>
      intro p hn
      rw [scanFrom_eq, if_neg (by omega)]
      exact List.Pairwise.nil
    | succ n ih =>
      intro p hn
      rw [scanFrom_eq]
      by_cases hp : p < t.length
      · rw [if_pos hp]
        cases hfa : firstAlt alts t p with
        | some x =>
          have h1 : 1 ≤ max 1 x.lit.length := Nat.le_max_left _ _
          refine List.Pairwise.cons ?_ (ih (p + max 1 x.lit.length) (by omega))
          intro y hy
          exact scanFrom_lb alts t _ y.1 y.2 (by simpa using hy)
        | none =>
          exact ih (p + 1) (by omega)
      · rw [if_neg hp]
        exact List.Pairwise.nil
  intro p
  exact key (t.length - p) p le_rfl

theorem firstAlt_mem {alts : List Alt} {t : List Char} {i : Nat} {a : Alt}
    (h : firstAlt alts t i = some a) : a ∈ alts :=
  List.mem_of_find?_eq_some h

theorem firstAlt_matches {alts : List Alt} {t : List Char} {i : Nat} {a : Alt}
    (h : firstAlt alts t i = some a) : altMatchAt t i a = true :=
  List.find?_some h

theorem firstAlt_max {t : List Char} {i : Nat} {a : Alt} :
    ∀ {alts : List Alt},
      alts.Pairwise (fun x y => y.lit.length ≤ x.lit.length) →
      firstAlt alts t i = some a →
      ∀ c ∈ alts, altMatchAt t i c = true → c.lit.length ≤ a.lit.length := by
  intro alts
  induction alts with
  | nil => intro _ h; simp [firstAlt] at h
  | cons x rest ih =>
    intro hsorted h c hc hm
    rw [List.pairwise_cons] at hsorted
    unfold firstAlt at h
    rw [List.find?] at h
    cases hx : altMatchAt t i x with
    | true =>
      rw [hx] at h
      have hax : a = x := by
        simpa using h.symm
      subst hax
      rcases List.mem_cons.mp hc with rfl | hc'
      · exact le_refl _
      · exact hsorted.1 c hc'
    | false =>
      rw [hx] at h
      rcases List.mem_cons.mp hc with rfl | hc'
      · rw [hm] at hx; cases hx
      · exact ih hsorted.2 h c hc' hm

theorem buildAlts_sorted (m : Matcher) :
    (buildAlts m).Pairwise (fun x y => y.lit.length ≤ x.lit.length) := by
  unfold buildAlts
  rw [List.pairwise_map]
  apply List.Pairwise.filter
  haveI hTot : IsTotal String (fun a b : String => b.length ≤ a.length) :=
    ⟨fun a b => (Nat.le_total b.length a.length).imp id id⟩
  haveI hTrans : IsTrans String (fun a b : String => b.length ≤ a.length) :=
    ⟨fun _ _ _ hab hbc => Nat.le_trans hbc hab⟩
  have hs := List.sorted_insertionSort
    (fun a b : String => b.length ≤ a.length) (dkeys m.alias_to_entity)
  exact hs.imp (fun hab => hab)

theorem buildAlts_len2 (m : Matcher) :
    ∀ alt ∈ buildAlts m, 2 ≤ alt.lit.length := by
  intro alt halt
  unfold buildAlts at halt
  rw [List.mem_map] at halt
  obtain ⟨a, ha, rfl⟩ := halt
  rw [List.mem_filter] at ha
  have h2 : 2 ≤ a.length := of_decide_eq_true ha.2
  exact h2

/-! ### Concrete catalogs for witnesses and counterexamples -/

/-- A catalog registering both "Eli Lilly" and its substring "Lilly". -/
def lillyCat : Catalog :=
  ⟨[("pharma", ⟨[⟨some "Eli Lilly", some "LLY", ["Eli Lilly", "Lilly"]⟩], []⟩)],
    [], []⟩

def lillyMatcher : Matcher :=
  ((loadEntities lillyCat).toOption).getD emptyMatcher

/-- A catalog registering a single-character alias "X". -/
def shortAliasCat : Catalog :=
  ⟨[("ai", ⟨[⟨some "XCorp", some "XC", ["X", "XCorp"]⟩], []⟩)], [], []⟩

def shortAliasMatcher : Matcher :=
  ((loadEntities shortAliasCat).toOption).getD emptyMatcher

/-- C10: for every catalog and every text, resolve never reports an
entity match via an alias shorter than 2 characters: every alternative
of the compiled entity pattern has length at least 2 (single-character
aliases are dropped at pattern build), so every match the entity scan
emits — the only way an alias contributes a ticker, entity or industry
to the result — is at least 2 characters long, even when the text
contains the single-character alias. -/
theorem C10_single_char_alias_never_contributes (m : Matcher) (text : String) :
    (∀ alt ∈ buildAlts m, 2 ≤ alt.lit.length) ∧
    (∀ hit ∈ scanFrom (buildAlts m) (pylower text).data 0,
      2 ≤ hit.2.lit.length) := by
  refine ⟨buildAlts_len2 m, fun hit hmem => ?_⟩
  obtain ⟨i, a⟩ := hit
  exact buildAlts_len2 m a (firstAlt_mem (scanFrom_sound _ _ 0 i a hmem))

/-- Witness for C10: the catalog registers the single-character alias
"X"; only the two-character-or-longer alias "xcorp" is compiled and
matched on text containing both. -/
theorem C10_single_char_alias_never_contributes_witness :
    ((⟨"xcorp".data, true⟩ : Alt) ∈ buildAlts shortAliasMatcher ∧
      2 ≤ ("xcorp".data).length) ∧
    ((2, (⟨"xcorp".data, true⟩ : Alt)) ∈
        scanFrom (buildAlts shortAliasMatcher) (pylower "X XCorp").data 0 ∧
      2 ≤ ("xcorp".data).length) :=
  ⟨⟨by decide,
      (C10_single_char_alias_never_contributes shortAliasMatcher "X XCorp").1
        ⟨"xcorp".data, true⟩ (by decide)⟩,
    ⟨by decide,
      (C10_single_char_alias_never_contributes shortAliasMatcher "X XCorp").2
        (2, ⟨"xcorp".data, true⟩) (by decide)⟩⟩

/-- C2 as stated is false on the code: with both "Eli Lilly" and its
substring "Lilly" registered, the text "xEli Lilly" contains the longer
alias (case-insensitively, at position 1), yet the scan emits exactly
one match — the shorter contained alias "lilly", at position 5, inside
that occurrence — and no match of the longer alias: the occurrence of
the longer alias fails its leading word boundary (the adjacent "x"),
which descending-length sorting cannot repair. -/
theorem C2_counterexample :
    (dget lillyMatcher.alias_to_entity "eli lilly").isSome = true ∧
    (dget lillyMatcher.alias_to_entity "lilly").isSome = true ∧
    litMatchAt (pylower "xEli Lilly").data 1 ("eli lilly".data) = true ∧
    scanFrom (buildAlts lillyMatcher) (pylower "xEli Lilly").data 0 =
      [(5, ⟨"lilly".data, true⟩)] := by decide

/-- C2 (amended): longest-alias-wins at every position the scan
reaches: if the scan matches alternative `a` at position `i`, then `a`
has maximal length among all alternatives matching at `i` (this is what
sorting by descending length guarantees), and no other match is emitted
at any position inside the span of `a` — in particular a shorter
contained alias never produces a partial match there. -/
theorem C2_longest_alias_wins (m : Matcher) (t : List Char) (i j : Nat)
    (a b : Alt)
    (ha : (i, a) ∈ scanFrom (buildAlts m) t 0)
    (hb : (j, b) ∈ scanFrom (buildAlts m) t 0)
    (hij : i ≤ j) (hlt : j < i + a.lit.length) :
    (j, b) = (i, a) ∧
    ∀ c ∈ buildAlts m, altMatchAt t i c = true →
      c.lit.length ≤ a.lit.length := by
  constructor
  · have hpw := scanFrom_pairwise (buildAlts m) t 0
    rcases pairwise_mem_rel hpw hb ha with heq | hr | hr
    · exact heq
    · exfalso
      have hr' : j + max 1 b.lit.length ≤ i := hr
      have h1 : 1 ≤ max 1 b.lit.length := Nat.le_max_left _ _
      omega
    · exfalso
      have hr' : i + max 1 a.lit.length ≤ j := hr
      have h2 : a.lit.length ≤ max 1 a.lit.length := Nat.le_max_right _ _
      omega
  · intro c hc hm
    exact firstAlt_max (buildAlts_sorted m) (scanFrom_sound _ _ 0 i a ha) c hc hm

/-- Witness for C2 (amended) at the Eli Lilly catalog: on text starting
with the longer alias at a word boundary, the scan matches the longer
alias and nothing else inside its span. -/
theorem C2_longest_alias_wins_witness :
    ((0, (⟨"eli lilly".data, true⟩ : Alt)) ∈
        scanFrom (buildAlts lillyMatcher) (pylower "Eli Lilly beat").data 0) ∧
    ((0, (⟨"eli lilly".data, true⟩ : Alt)) =
        (0, (⟨"eli lilly".data, true⟩ : Alt)) ∧
      ∀ c ∈ buildAlts lillyMatcher,
        altMatchAt (pylower "Eli Lilly beat").data 0 c = true →
          c.lit.length ≤ ("eli lilly".data).length) :=
  ⟨by decide,
    C2_longest_alias_wins lillyMatcher (pylower "Eli Lilly beat").data 0 0
      ⟨"eli lilly".data, true⟩ ⟨"eli lilly".data, true⟩
      (by decide) (by decide) (by decide) (by decide)⟩

/-! ### Closed-form characterization of the built lookup maps -/

/-- The dictionary writes one catalog entry performs, by target map,
plus the industries recorded. -/
structure MWrites where
  tti : Dict TickerInfo
  eti : Dict EntityInfo
  ate : Dict String
  att : Dict String
  ind : List String

def MWrites.empty : MWrites := ⟨[], [], [], [], []⟩

/-- Apply a block of writes to a matcher state. -/
def Matcher.app (st : Matcher) (w : MWrites) : Matcher :=
  { ticker_to_info := st.ticker_to_info ++ w.tti,
    entity_to_info := st.entity_to_info ++ w.eti,
    alias_to_entity := st.alias_to_entity ++ w.ate,
    alias_to_ticker := st.alias_to_ticker ++ w.att,
    industries := w.ind.foldl (fun s x => insert x s) st.industries }

def MWrites.comb (w1 w2 : MWrites) : MWrites :=
  ⟨w1.tti ++ w2.tti, w1.eti ++ w2.eti, w1.ate ++ w2.ate, w1.att ++ w2.att,
    w1.ind ++ w2.ind⟩

theorem Matcher.app_app (st : Matcher) (w1 w2 : MWrites) :
    (st.app w1).app w2 = st.app (w1.comb w2) := by
  unfold Matcher.app MWrites.comb
  simp [List.append_assoc, List.foldl_append]

theorem Matcher.app_empty (st : Matcher) : st.app MWrites.empty = st := by
  unfold Matcher.app MWrites.empty
  simp

/-- Writes of one listed company. -/
def wListed (industry : String) (c : Company) : MWrites :=
  match c.name with
  | none => MWrites.empty
  | some name =>
    let t := c.ticker.getD ""
    { tti := if t ≠ "" then [(t, ⟨name, industry⟩)] else [],
      eti := [(name, EntityInfo.company industry (some t) true)],
      ate := c.aliases.map (fun a => (pylower a, name)),
      att := (if t ≠ "" then [(pylower name, t), (pylower t, t)] else []) ++
        (if t ≠ "" then c.aliases.map (fun a => (pylower a, t)) else []),
      ind := [] }

/-- Writes of one unlisted company. -/
def wUnlisted (industry : String) (c : Company) : MWrites :=
  match c.name with
  | none => MWrites.empty
  | some name =>
    ⟨[], [(name, EntityInfo.company industry none false)],
      (pylower name, name) :: c.aliases.map (fun a => (pylower a, name)),
      [], []⟩

/-- Writes of one `key_people` entry. -/
def wPerson (p : Person) : MWrites :=
  match p.name with
  | none => MWrites.empty
  | some name =>
    ⟨[], [(name, EntityInfo.person p.entities)],
      (pylower name, name) :: p.aliases.map (fun a => (pylower a, name)),
      [], []⟩

/-- Writes of one `institutions` entry. -/
def wInstitution (i : Institution) : MWrites :=
  match i.name with
  | none => MWrites.empty
  | some name =>
    ⟨[], [(name, EntityInfo.institution)],
      (pylower name, name) :: i.aliases.map (fun a => (pylower a, name)),
      [], []⟩

/-- Writes of one industry entry. -/
def wIndustry (ic : String × IndustryCats) : MWrites :=
  MWrites.comb ⟨[], [], [], [], [ic.1]⟩
    (MWrites.comb
      ((ic.2.listed.map (wListed ic.1)).foldr MWrites.comb MWrites.empty)
      ((ic.2.unlisted.map (wUnlisted ic.1)).foldr MWrites.comb MWrites.empty))

/-- All writes of a catalog, in execution order. -/
def wCatalog (cat : Catalog) : MWrites :=
  MWrites.comb
    ((cat.entities.map wIndustry).foldr MWrites.comb MWrites.empty)
    (MWrites.comb
      ((cat.key_people.map wPerson).foldr MWrites.comb MWrites.empty)
      ((cat.institutions.map wInstitution).foldr MWrites.comb MWrites.empty))

theorem foldl_listedAliasStep (name t : String) :
    ∀ (aliases : List String) (st0 : Matcher),
      aliases.foldl (listedAliasStep name t) st0 =
        { st0 with
          alias_to_entity := st0.alias_to_entity ++
            aliases.map (fun a => (pylower a, name)),
          alias_to_ticker := st0.alias_to_ticker ++
            (if t ≠ "" then aliases.map (fun a => (pylower a, t)) else []) } := by
  intro aliases
  induction aliases with
  | nil =>
    intro st0
    cases st0
    by_cases ht : t ≠ "" <;> simp [ht]
  | cons x xs ih =>
    intro st0
    rw [List.foldl_cons, ih]
    by_cases ht : t ≠ ""
    · cases st0
      simp [listedAliasStep, ht, List.append_assoc]
    · cases st0
      simp [listedAliasStep, ht, List.append_assoc]

theorem foldl_ateStep (name : String) :
    ∀ (aliases : List String) (st0 : Matcher),
      aliases.foldl (ateStep name) st0 =
        { st0 with alias_to_entity := st0.alias_to_entity ++
            aliases.map (fun a => (pylower a, name)) } := by
  intro aliases
  induction aliases with
  | nil => intro st0; cases st0; simp
  | cons x xs ih =>
    intro st0
    rw [List.foldl_cons, ih]
    cases st0
    simp [ateStep, List.append_assoc]

theorem loadListedCompany_eq (industry : String) (st : Matcher) (c : Company)
    (n : String) (hn : c.name = some n) :
    loadListedCompany industry st c = .ok (st.app (wListed industry c)) := by
  simp only [loadListedCompany, hn]
  rw [foldl_listedAliasStep]
  simp only [wListed, hn, Matcher.app]
  by_cases ht : c.ticker.getD "" ≠ ""
  · simp only [if_pos ht]
    cases st
    simp [List.append_assoc]
  · simp only [if_neg ht]
    cases st
    simp [List.append_assoc]

theorem loadUnlistedCompany_eq (industry : String) (st : Matcher) (c : Company)
    (n : String) (hn : c.name = some n) :
    loadUnlistedCompany industry st c = .ok (st.app (wUnlisted industry c)) := by
  simp only [loadUnlistedCompany, hn]
  rw [foldl_ateStep]
  simp only [wUnlisted, hn, Matcher.app]
  cases st
  simp [List.append_assoc]

theorem loadPerson_eq (st : Matcher) (p : Person) (n : String)
    (hn : p.name = some n) :
    loadPerson st p = .ok (st.app (wPerson p)) := by
  simp only [loadPerson, hn]
  rw [foldl_ateStep]
  simp only [wPerson, hn, Matcher.app]
  cases st
  simp [List.append_assoc]

theorem loadInstitution_eq (st : Matcher) (i : Institution) (n : String)
    (hn : i.name = some n) :
    loadInstitution st i = .ok (st.app (wInstitution i)) := by
  simp only [loadInstitution, hn]
  rw [foldl_ateStep]
  simp only [wInstitution, hn, Matcher.app]
  cases st
  simp [List.append_assoc]

theorem loadList_eq {α : Type} (f : Matcher → α → Except ConfigError Matcher)
    (W : α → MWrites) (wf : α → Bool)
    (hf : ∀ st x, wf x = true → f st x = .ok (st.app (W x))) :
    ∀ (xs : List α) (st : Matcher), xs.all wf = true →
      loadList f st xs =
        .ok (st.app ((xs.map W).foldr MWrites.comb MWrites.empty)) := by
  intro xs
  induction xs with
  | nil =>
    intro st _
    simp [loadList, Matcher.app_empty]
  | cons x xs ih =>
    intro st hall
    simp only [List.all_cons, Bool.and_eq_true] at hall
    rw [loadList]
    simp only [hf st x hall.1]
    rw [ih _ hall.2, Matcher.app_app]
    rfl

theorem loadIndustry_eq (st : Matcher) (ic : String × IndustryCats)
    (h1 : ic.2.listed.all (fun c => c.name.isSome) = true)
    (h2 : ic.2.unlisted.all (fun c => c.name.isSome) = true) :
    loadIndustry st ic = .ok (st.app (wIndustry ic)) := by
  have hfl : ∀ st (c : Company), (fun c : Company => c.name.isSome) c = true →
      loadListedCompany ic.1 st c = .ok (st.app (wListed ic.1 c)) := by
    intro st c hc
    obtain ⟨n, hn⟩ := Option.isSome_iff_exists.mp hc
    exact loadListedCompany_eq ic.1 st c n hn
  have hfu : ∀ st (c : Company), (fun c : Company => c.name.isSome) c = true →
      loadUnlistedCompany ic.1 st c = .ok (st.app (wUnlisted ic.1 c)) := by
    intro st c hc
    obtain ⟨n, hn⟩ := Option.isSome_iff_exists.mp hc
    exact loadUnlistedCompany_eq ic.1 st c n hn
  have e1 := loadList_eq _ (wListed ic.1) _ hfl ic.2.listed
    { st with industries := insert ic.1 st.industries } h1
  have e2 := loadList_eq _ (wUnlisted ic.1) _ hfu ic.2.unlisted
    ({ st with industries := insert ic.1 st.industries }.app
      ((ic.2.listed.map (wListed ic.1)).foldr MWrites.comb MWrites.empty)) h2
  simp only [loadIndustry, e1, e2]
  rw [Matcher.app_app]
  cases st
  simp [Matcher.app, wIndustry, MWrites.comb, List.append_assoc,
    List.foldl_append]

theorem loadEntities_eq (cat : Catalog) (hwf : cat.wellFormed = true) :
    loadEntities cat = .ok (emptyMatcher.app (wCatalog cat)) := by
  simp only [Catalog.wellFormed, Bool.and_eq_true] at hwf
  obtain ⟨⟨hind, hpep⟩, hins⟩ := hwf
  have hfi : ∀ st (ic : String × IndustryCats),
      (fun ic : String × IndustryCats =>
        ic.2.listed.all (fun c => c.name.isSome) &&
          ic.2.unlisted.all (fun c => c.name.isSome)) ic = true →
      loadIndustry st ic = .ok (st.app (wIndustry ic)) := by
    intro st ic hic
    rw [Bool.and_eq_true] at hic
    exact loadIndustry_eq st ic hic.1 hic.2
  have hfp : ∀ st (p : Person), (fun p : Person => p.name.isSome) p = true →
      loadPerson st p = .ok (st.app (wPerson p)) := by
    intro st p hp
    obtain ⟨n, hn⟩ := Option.isSome_iff_exists.mp hp
    exact loadPerson_eq st p n hn
  have hfn : ∀ st (i : Institution), (fun i : Institution => i.name.isSome) i = true →
      loadInstitution st i = .ok (st.app (wInstitution i)) := by
    intro st i hi
    obtain ⟨n, hn⟩ := Option.isSome_iff_exists.mp hi
    exact loadInstitution_eq st i n hn
  have e1 := loadList_eq _ wIndustry _ hfi cat.entities emptyMatcher hind
  have e2 := loadList_eq _ wPerson _ hfp cat.key_people
    (emptyMatcher.app ((cat.entities.map wIndustry).foldr MWrites.comb
      MWrites.empty)) hpep
  have e3 := loadList_eq _ wInstitution _ hfn cat.institutions
    ((emptyMatcher.app ((cat.entities.map wIndustry).foldr MWrites.comb
        MWrites.empty)).app
      ((cat.key_people.map wPerson).foldr MWrites.comb MWrites.empty)) hins
  simp only [loadEntities, e1, e2, e3]
  rw [Matcher.app_app, Matcher.app_app]
  rfl

/-! ### Key-structure lemmas for the built maps -/

theorem wUnlisted_att (industry : String) (c : Company) :
    (wUnlisted industry c).att = [] := by
  cases h : c.name <;> simp [wUnlisted, h, MWrites.empty]

theorem wPerson_att (p : Person) : (wPerson p).att = [] := by
  cases h : p.name <;> simp [wPerson, h, MWrites.empty]

theorem wInstitution_att (i : Institution) : (wInstitution i).att = [] := by
  cases h : i.name <;> simp [wInstitution, h, MWrites.empty]

theorem mem_foldr_comb_att {e : String × String} :
    ∀ {ws : List MWrites},
      (e ∈ (ws.foldr MWrites.comb MWrites.empty).att ↔ ∃ w ∈ ws, e ∈ w.att) := by
  intro ws
  induction ws with
  | nil => simp [MWrites.empty]
  | cons w ws ih =>
    simp only [List.foldr_cons, MWrites.comb, List.mem_append, ih]
    constructor
    · rintro (h | ⟨w', hw', he⟩)
      · exact ⟨w, List.mem_cons_self _ _, h⟩
      · exact ⟨w', List.mem_cons_of_mem _ hw', he⟩
    · rintro ⟨w', hw', he⟩
      rcases List.mem_cons.mp hw' with rfl | hw'
      · exact Or.inl he
      · exact Or.inr ⟨w', hw', he⟩

theorem mem_foldr_comb_ate {e : String × String} :
    ∀ {ws : List MWrites},
      (e ∈ (ws.foldr MWrites.comb MWrites.empty).ate ↔ ∃ w ∈ ws, e ∈ w.ate) := by
  intro ws
  induction ws with
  | nil => simp [MWrites.empty]
  | cons w ws ih =>
    simp only [List.foldr_cons, MWrites.comb, List.mem_append, ih]
    constructor
    · rintro (h | ⟨w', hw', he⟩)
      · exact ⟨w, List.mem_cons_self _ _, h⟩
      · exact ⟨w', List.mem_cons_of_mem _ hw', he⟩
    · rintro ⟨w', hw', he⟩
      rcases List.mem_cons.mp hw' with rfl | hw'
      · exact Or.inl he
      · exact Or.inr ⟨w', hw', he⟩

theorem mem_foldr_comb_tti {e : String × TickerInfo} :
    ∀ {ws : List MWrites},
      (e ∈ (ws.foldr MWrites.comb MWrites.empty).tti ↔ ∃ w ∈ ws, e ∈ w.tti) := by
  intro ws
  induction ws with
  | nil => simp [MWrites.empty]
  | cons w ws ih =>
    simp only [List.foldr_cons, MWrites.comb, List.mem_append, ih]
    constructor
    · rintro (h | ⟨w', hw', he⟩)
      · exact ⟨w, List.mem_cons_self _ _, h⟩
      · exact ⟨w', List.mem_cons_of_mem _ hw', he⟩
    · rintro ⟨w', hw', he⟩
      rcases List.mem_cons.mp hw' with rfl | hw'
      · exact Or.inl he
      · exact Or.inr ⟨w', hw', he⟩

theorem mem_wIndustry_att {ic : String × IndustryCats} {e : String × String} :
    e ∈ (wIndustry ic).att ↔ ∃ c ∈ ic.2.listed, e ∈ (wListed ic.1 c).att := by
  unfold wIndustry
  simp only [MWrites.comb, List.nil_append, List.mem_append,
    mem_foldr_comb_att, List.mem_map]
  constructor
  · rintro (⟨w, ⟨c, hc, rfl⟩, he⟩ | ⟨w, ⟨c, hc, rfl⟩, he⟩)
    · exact ⟨c, hc, he⟩
    · rw [wUnlisted_att] at he; cases he
  · rintro ⟨c, hc, he⟩
    exact Or.inl ⟨wListed ic.1 c, ⟨c, hc, rfl⟩, he⟩

theorem mem_wCatalog_att {cat : Catalog} {e : String × String} :
    e ∈ (wCatalog cat).att ↔
      ∃ ic ∈ cat.entities, ∃ c ∈ ic.2.listed, e ∈ (wListed ic.1 c).att := by
  unfold wCatalog
  simp only [MWrites.comb, List.mem_append, mem_foldr_comb_att, List.mem_map]
  constructor
  · rintro (⟨w, ⟨ic, hic, rfl⟩, he⟩ | ⟨w, ⟨p, hp, rfl⟩, he⟩ | ⟨w, ⟨i, hi, rfl⟩, he⟩)
    · obtain ⟨c, hc, he'⟩ := mem_wIndustry_att.mp he
      exact ⟨ic, hic, c, hc, he'⟩
    · rw [wPerson_att] at he; cases he
    · rw [wInstitution_att] at he; cases he
  · rintro ⟨ic, hic, c, hc, he⟩
    exact Or.inl ⟨wIndustry ic, ⟨ic, hic, rfl⟩,
      mem_wIndustry_att.mpr ⟨c, hc, he⟩⟩

theorem mem_wCatalog_ate_of_listed {cat : Catalog}
    {ic : String × IndustryCats} {c : Company} {e : String × String}
    (hic : ic ∈ cat.entities) (hc : c ∈ ic.2.listed)
    (he : e ∈ (wListed ic.1 c).ate) : e ∈ (wCatalog cat).ate := by
  unfold wCatalog
  simp only [MWrites.comb, List.mem_append, mem_foldr_comb_ate, List.mem_map]
  refine Or.inl ⟨wIndustry ic, ⟨ic, hic, rfl⟩, ?_⟩
  unfold wIndustry
  simp only [MWrites.comb, List.nil_append, List.mem_append,
    mem_foldr_comb_ate, List.mem_map]
  exact Or.inl ⟨wListed ic.1 c, ⟨c, hc, rfl⟩, he⟩

theorem mem_wCatalog_tti_of_listed {cat : Catalog}
    {ic : String × IndustryCats} {c : Company} {e : String × TickerInfo}
    (hic : ic ∈ cat.entities) (hc : c ∈ ic.2.listed)
    (he : e ∈ (wListed ic.1 c).tti) : e ∈ (wCatalog cat).tti := by
  unfold wCatalog
  simp only [MWrites.comb, List.mem_append, mem_foldr_comb_tti, List.mem_map]
  refine Or.inl ⟨wIndustry ic, ⟨ic, hic, rfl⟩, ?_⟩
  unfold wIndustry
  simp only [MWrites.comb, List.nil_append, List.mem_append,
    mem_foldr_comb_tti, List.mem_map]
  exact Or.inl ⟨wListed ic.1 c, ⟨c, hc, rfl⟩, he⟩

theorem mem_wCatalog_att_of_listed {cat : Catalog}
    {ic : String × IndustryCats} {c : Company} {e : String × String}
    (hic : ic ∈ cat.entities) (hc : c ∈ ic.2.listed)
    (he : e ∈ (wListed ic.1 c).att) : e ∈ (wCatalog cat).att :=
  mem_wCatalog_att.mpr ⟨ic, hic, c, hc, he⟩

/-- `dget` of a uniquely-keyed write. -/
theorem dget_eq_of_mem_nodup {β : Type} :
    ∀ {d : Dict β} {k : String} {v : β},
      (k, v) ∈ d → (d.map Prod.fst).Nodup → dget d k = some v := by
  intro d
  induction d with
  | nil => intro k v h; cases h
  | cons p rest ih =>
    intro k v hmem hnd
    rw [List.map_cons, List.nodup_cons] at hnd
    have hsplit : dget (p :: rest) k =
        (dget rest k).orElse (fun _ => dget [p] k) := by
      have : p :: rest = [p] ++ rest := rfl
      rw [this, dget_append]
    rcases List.mem_cons.mp hmem with rfl | hmem'
    · have hnone : dget rest k = none := by
        by_contra hx
        have hs : (dget rest k).isSome := by
          cases hq : dget rest k with
          | none => exact absurd hq hx
          | some _ => simp
        exact hnd.1 (dget_isSome_iff_mem.mp hs)
      rw [hsplit, hnone]
      simp [dget_single]
    · rw [hsplit, ih hmem' hnd.2]
      simp [Option.orElse]

/-! ### Accumulation lemmas for `find_matches` -/

/-- Componentwise containment of resolve results. -/
def rleq (r1 r2 : ResolveResult) : Prop :=
  r1.tickers ⊆ r2.tickers ∧ r1.entities ⊆ r2.entities ∧
    r1.industries ⊆ r2.industries

theorem rleq_refl (r : ResolveResult) : rleq r r :=
  ⟨Finset.Subset.refl _, Finset.Subset.refl _, Finset.Subset.refl _⟩

theorem rleq_trans {r1 r2 r3 : ResolveResult} (h1 : rleq r1 r2)
    (h2 : rleq r2 r3) : rleq r1 r3 :=
  ⟨h1.1.trans h2.1, h1.2.1.trans h2.2.1, h1.2.2.trans h2.2.2⟩

theorem aliasStep_rleq (m : Matcher) (acc : ResolveResult) (hit : Nat × Alt) :
    rleq acc (aliasStep m acc hit) := by
  unfold rleq
  simp only [aliasStep]
  refine ⟨?_, ?_, ?_⟩ <;>
  · repeat' split
    all_goals
      first
        | exact Finset.Subset.refl _
        | exact Finset.subset_insert _ _

theorem tickerStep_rleq (m : Matcher) (td : List Char) (acc : ResolveResult)
    (hit : String × Nat) : rleq acc (tickerStep m td acc hit) := by
  simp only [tickerStep]
  cases h1 : dget m.ticker_to_info
      (toUpperStr ((td.drop hit.2).take hit.1.length)) with
  | none => exact rleq_refl _
  | some info =>
    exact ⟨Finset.subset_insert _ _, Finset.subset_insert _ _,
      Finset.subset_insert _ _⟩

theorem rleq_foldl_aliasStep (m : Matcher) :
    ∀ (l : List (Nat × Alt)) (acc : ResolveResult),
      rleq acc (l.foldl (aliasStep m) acc) := by
  intro l
  induction l with
  | nil => intro acc; exact rleq_refl _
  | cons x xs ih =>
    intro acc
    exact rleq_trans (aliasStep_rleq m acc x) (ih (aliasStep m acc x))

theorem rleq_foldl_tickerStep (m : Matcher) (td : List Char) :
    ∀ (l : List (String × Nat)) (acc : ResolveResult),
      rleq acc (l.foldl (tickerStep m td) acc) := by
  intro l
  induction l with
  | nil => intro acc; exact rleq_refl _
  | cons x xs ih =>
    intro acc
    exact rleq_trans (tickerStep_rleq m td acc x) (ih (tickerStep m td acc x))

theorem aliasStep_spec (m : Matcher) (acc : ResolveResult) (hit : Nat × Alt)
    {n : String} (h1 : dget m.alias_to_entity ⟨hit.2.lit⟩ = some n) :
    n ∈ (aliasStep m acc hit).entities ∧
    ∀ t, dget m.alias_to_ticker ⟨hit.2.lit⟩ = some t →
      t ∈ (aliasStep m acc hit).tickers := by
  constructor
  · simp only [aliasStep, h1]
    repeat' split
    all_goals exact Finset.mem_insert_self _ _
  · intro t h2
    simp only [aliasStep, h1, h2]
    repeat' split
    all_goals exact Finset.mem_insert_self _ _

theorem tickerStep_spec (m : Matcher) (td : List Char) (acc : ResolveResult)
    (hit : String × Nat) {info : TickerInfo}
    (h1 : dget m.ticker_to_info
      (toUpperStr ((td.drop hit.2).take hit.1.length)) = some info) :
    info.name ∈ (tickerStep m td acc hit).entities := by
  simp only [tickerStep, h1]
  exact Finset.mem_insert_self _ _

theorem hit_entities (m : Matcher) :
    ∀ (l : List (Nat × Alt)) (acc : ResolveResult) (hit : Nat × Alt)
      (n : String), hit ∈ l → dget m.alias_to_entity ⟨hit.2.lit⟩ = some n →
      n ∈ (l.foldl (aliasStep m) acc).entities ∧
      ∀ t, dget m.alias_to_ticker ⟨hit.2.lit⟩ = some t →
        t ∈ (l.foldl (aliasStep m) acc).tickers := by
  intro l
  induction l with
  | nil => intro acc hit n h; cases h
  | cons x xs ih =>
    intro acc hit n hmem h1
    rcases List.mem_cons.mp hmem with rfl | hmem'
    · have hs := aliasStep_spec m acc hit h1
      have hle := rleq_foldl_aliasStep m xs (aliasStep m acc hit)
      exact ⟨hle.2.1 hs.1, fun t ht => hle.1 (hs.2 t ht)⟩
    · exact ih (aliasStep m acc x) hit n hmem' h1

theorem hit_ticker_entities (m : Matcher) (td : List Char) :
    ∀ (l : List (String × Nat)) (acc : ResolveResult) (hit : String × Nat)
      (info : TickerInfo), hit ∈ l →
      dget m.ticker_to_info
        (toUpperStr ((td.drop hit.2).take hit.1.length)) = some info →
      info.name ∈ (l.foldl (tickerStep m td) acc).entities := by
  intro l
  induction l with
  | nil => intro acc hit info h; cases h
  | cons x xs ih =>
    intro acc hit info hmem h1
    rcases List.mem_cons.mp hmem with rfl | hmem'
    · have hs := tickerStep_spec m td acc hit h1
      exact (rleq_foldl_tickerStep m td xs (tickerStep m td acc hit)).2.1 hs
    · exact ih (tickerStep m td acc x) hit info hmem' h1

/-- The alias keys a listed company registers through its lowercased
name and lowercased ticker (rather than through its aliases list). -/
def nameTickerKeys (cat : Catalog) : List String :=
  cat.entities.flatMap (fun ic => ic.2.listed.flatMap (fun c =>
    match c.name with
    | none => []
    | some n =>
      if c.ticker.getD "" ≠ "" then [pylower n, pylower (c.ticker.getD "")]
      else []))

/-- A catalog whose listed company has no explicit aliases: its
lowercased name and ticker enter `alias_to_ticker` but nothing enters
`alias_to_entity`. -/
def acmeCat : Catalog :=
  ⟨[("tech", ⟨[⟨some "Acme", some "ACM", []⟩], []⟩)], [], []⟩

def acmeMatcher : Matcher :=
  ((loadEntities acmeCat).toOption).getD emptyMatcher

/-- C1 as stated is false on the code: for the accepted catalog
`acmeCat`, "acme" (the lowercased company name) is a key of
`alias_to_ticker` but not of `alias_to_entity`; consequently resolving
text containing that alias reports no entity at all, while resolving
the ticker "ACM" reports the canonical entity "Acme". -/
theorem C1_counterexample :
    loadEntities acmeCat = .ok acmeMatcher ∧
    (dget acmeMatcher.alias_to_ticker "acme").isSome = true ∧
    (dget acmeMatcher.alias_to_entity "acme").isSome = false ∧
    (findMatches acmeMatcher "Acme").entities = ∅ ∧
    (findMatches acmeMatcher "ACM").entities = {"Acme"} :=
  ⟨rfl, by decide, by decide, by decide, by decide⟩

/-- C1 (amended): for every catalog accepted by construction, every key
of `alias_to_ticker` is a key of `alias_to_entity` or arises as a listed
company's lowercased name or lowercased ticker (those two enter only
`alias_to_ticker`); when no alias, ticker or entity key is registered
twice, an alias registered through a company's aliases list maps to the
company's canonical name while its ticker maps back to the same name,
and resolve reports exactly that: a text in which the alias is matched
yields the canonical entity and the ticker, and a text in which the
ticker is matched yields the same canonical entity. -/
theorem C1_ticker_alias_consistency (cat : Catalog) (m : Matcher)
    (hok : loadEntities cat = .ok m) :
    (∀ k, (dget m.alias_to_ticker k).isSome →
        (dget m.alias_to_entity k).isSome ∨ k ∈ nameTickerKeys cat) ∧
    ((m.alias_to_entity.map Prod.fst).Nodup →
      (m.alias_to_ticker.map Prod.fst).Nodup →
      (m.ticker_to_info.map Prod.fst).Nodup →
      ∀ ic ∈ cat.entities, ∀ c ∈ ic.2.listed, ∀ n, c.name = some n →
        c.ticker.getD "" ≠ "" → ∀ al ∈ c.aliases,
          dget m.alias_to_entity (pylower al) = some n ∧
          dget m.alias_to_ticker (pylower al) = some (c.ticker.getD "") ∧
          dget m.ticker_to_info (c.ticker.getD "") = some ⟨n, ic.1⟩) ∧
    (∀ text : String, text ≠ "" →
      (∀ i a n, (i, a) ∈ scanFrom (buildAlts m) (pylower text).data 0 →
        dget m.alias_to_entity ⟨a.lit⟩ = some n →
        n ∈ (findMatches m text).entities ∧
        ∀ t, dget m.alias_to_ticker ⟨a.lit⟩ = some t →
          t ∈ (findMatches m text).tickers) ∧
      (∀ hit info, hit ∈ tickerScan (tickerAlts m) text.data 0 →
        dget m.ticker_to_info
          (toUpperStr ((text.data.drop hit.2).take hit.1.length)) =
            some info →
        info.name ∈ (findMatches m text).entities)) := by
  have hwf : cat.wellFormed = true := by
    by_contra hx
    have herr := (loadEntities_char cat).2 hx
    rw [herr] at hok
    cases hok
  have hm : m = emptyMatcher.app (wCatalog cat) := by
    have he := loadEntities_eq cat hwf
    rw [he] at hok
    injection hok with h
    exact h.symm
  have hATE : m.alias_to_entity = (wCatalog cat).ate := by rw [hm]; rfl
  have hATT : m.alias_to_ticker = (wCatalog cat).att := by rw [hm]; rfl
  have hTTI : m.ticker_to_info = (wCatalog cat).tti := by rw [hm]; rfl
  refine ⟨?_, ?_, ?_⟩
  · intro k hk
    rw [hATT, dget_isSome_iff_mem] at hk
    obtain ⟨e, he, hek⟩ := List.mem_map.mp hk
    obtain ⟨ic, hic, c, hc, he'⟩ := mem_wCatalog_att.mp he
    cases hn : c.name with
    | none =>
      simp [wListed, hn, MWrites.empty] at he'
    | some n =>
      by_cases ht : c.ticker.getD "" ≠ ""
      · simp only [wListed, hn, if_pos ht] at he'
        rcases List.mem_append.mp he' with h1 | h2
        · right
          unfold nameTickerKeys
          rw [List.mem_flatMap]
          refine ⟨ic, hic, ?_⟩
          rw [List.mem_flatMap]
          refine ⟨c, hc, ?_⟩
          simp only [hn, if_pos ht]
          rcases List.mem_cons.mp h1 with rfl | h1'
          · rw [← hek]; simp
          · rcases List.mem_cons.mp h1' with rfl | h1''
            · rw [← hek]; simp
            · cases h1''
        · left
          obtain ⟨al, hal, hale⟩ := List.mem_map.mp h2
          rw [hATE, dget_isSome_iff_mem]
          have hmemA : (pylower al, n) ∈ (wListed ic.1 c).ate := by
            simp only [wListed, hn]
            exact List.mem_map.mpr ⟨al, hal, rfl⟩
          have hw := mem_wCatalog_ate_of_listed hic hc hmemA
          rw [← hek, ← hale]
          exact List.mem_map.mpr ⟨(pylower al, n), hw, rfl⟩
      · simp only [wListed, hn, if_neg ht] at he'
        simp at he'
  · intro hndA hndT hndK ic hic c hc n hn ht al hal
    have hmemA : (pylower al, n) ∈ (wCatalog cat).ate :=
      mem_wCatalog_ate_of_listed hic hc (by
        simp only [wListed, hn]
        exact List.mem_map.mpr ⟨al, hal, rfl⟩)
    have hmemT : (pylower al, c.ticker.getD "") ∈ (wCatalog cat).att :=
      mem_wCatalog_att_of_listed hic hc (by
        simp only [wListed, hn, if_pos ht]
        exact List.mem_append.mpr (Or.inr (List.mem_map.mpr ⟨al, hal, rfl⟩)))
    have hmemK : (c.ticker.getD "", (⟨n, ic.1⟩ : TickerInfo)) ∈
        (wCatalog cat).tti :=
      mem_wCatalog_tti_of_listed hic hc (by
        simp only [wListed, hn, if_pos ht]
        simp)
    rw [hATE] at hndA
    rw [hATT] at hndT
    rw [hTTI] at hndK
    refine ⟨?_, ?_, ?_⟩
    · rw [hATE]; exact dget_eq_of_mem_nodup hmemA hndA
    · rw [hATT]; exact dget_eq_of_mem_nodup hmemT hndT
    · rw [hTTI]; exact dget_eq_of_mem_nodup hmemK hndK
  · intro text htext
    have hfm : findMatches m text =
        (scanFrom (buildAlts m) (pylower text).data 0).foldl (aliasStep m)
          ((tickerScan (tickerAlts m) text.data 0).foldl
            (tickerStep m text.data) emptyResolve) := by
      simp only [findMatches, if_neg htext]
    constructor
    · intro i a n hscan hate
      rw [hfm]
      exact hit_entities m _ _ (i, a) n hscan hate
    · intro hit info hhit htti
      rw [hfm]
      have h1 := hit_ticker_entities m text.data _ emptyResolve hit info
        hhit htti
      exact (rleq_foldl_aliasStep m _ _).2.1 h1

/-- A one-company catalog with a single explicit alias; all registered
keys are distinct. -/
def lillyCat2 : Catalog :=
  ⟨[("pharma", ⟨[⟨some "Eli Lilly", some "LLY", ["Lilly"]⟩], []⟩)], [], []⟩

def lillyMatcher2 : Matcher :=
  ((loadEntities lillyCat2).toOption).getD emptyMatcher

/-- Witness for C1 (amended) at a concrete catalog. -/
theorem C1_ticker_alias_consistency_witness :
    ((dget lillyMatcher2.alias_to_entity "lilly").isSome = true ∨
      "lilly" ∈ nameTickerKeys lillyCat2) ∧
    (dget lillyMatcher2.alias_to_entity (pylower "Lilly") = some "Eli Lilly" ∧
      dget lillyMatcher2.alias_to_ticker (pylower "Lilly") = some "LLY" ∧
      dget lillyMatcher2.ticker_to_info "LLY" =
        some ⟨"Eli Lilly", "pharma"⟩) ∧
    ("Eli Lilly" ∈ (findMatches lillyMatcher2 "Lilly surges").entities ∧
      "LLY" ∈ (findMatches lillyMatcher2 "Lilly surges").tickers) ∧
    "Eli Lilly" ∈ (findMatches lillyMatcher2 "LLY up").entities := by
  have hthm := C1_ticker_alias_consistency lillyCat2 lillyMatcher2 rfl
  refine ⟨?_, ?_, ?_, ?_⟩
  · exact hthm.1 "lilly" (by decide)
  · exact hthm.2.1 (by decide) (by decide) (by decide)
      ("pharma", ⟨[⟨some "Eli Lilly", some "LLY", ["Lilly"]⟩], []⟩)
      (by decide) ⟨some "Eli Lilly", some "LLY", ["Lilly"]⟩ (by decide)
      "Eli Lilly" (by decide) (by decide) "Lilly" (by decide)
  · have h := (hthm.2.2 "Lilly surges" (by decide)).1 0
      ⟨"lilly".data, true⟩ "Eli Lilly" (by decide) (by decide)
    exact ⟨h.1, h.2 "LLY" (by decide)⟩
  · exact (hthm.2.2 "LLY up" (by decide)).2 ("LLY", 0)
      ⟨"Eli Lilly", "pharma"⟩ (by decide) (by decide)

/-! ### Pre-market V3 analyzer: numeric formatting -/

/-- Round to the nearest integer, ties to even — CPython rounding for
`round` and string formatting (modelled on exact rationals; computed on
the numerator/denominator so that the kernel can evaluate it). -/
def roundHalfEven (q : ℚ) : ℤ :=
  let n := q.num
  let d := (q.den : ℤ)
  let f := Int.fdiv n d
  let r := n - f * d
  if 2 * r < d then f
  else if d < 2 * r then f + 1
  else if f % 2 = 0 then f else f + 1

/-- Python `abs` on an exact rational. -/
def pyabs (q : ℚ) : ℚ := if q < 0 then -q else q

/-- `round(x, 2)`. -/
def round2 (q : ℚ) : ℚ := (roundHalfEven (q * 100) : ℚ) / 100

/-- Digits of a two-decimal fraction part. -/
def frac2Str (frac : ℕ) : String :=
  (if frac < 10 then "0" else "") ++ toString frac

/-- Python format `{:+.2f}` on an exact rational. -/
def fmtPlus2 (q : ℚ) : String :=
  let n := roundHalfEven (q * 100)
  let sign := if n < 0 ∨ (n = 0 ∧ q < 0) then "-" else "+"
  sign ++ toString (n.natAbs / 100) ++ "." ++ frac2Str (n.natAbs % 100)

/-- Python format `{:.2f}` on an exact rational. -/
def fmt2 (q : ℚ) : String :=
  let n := roundHalfEven (q * 100)
  let sign := if n < 0 ∨ (n = 0 ∧ q < 0) then "-" else ""
  sign ++ toString (n.natAbs / 100) ++ "." ++ frac2Str (n.natAbs % 100)

/-- Python format `{:.0f}` on an exact rational. -/
def fmt0 (q : ℚ) : String :=
  let n := roundHalfEven q
  if n = 0 ∧ q < 0 then "-0" else toString n

/-! ### Pre-market V3 analyzer: watchlist scoring -/

/-- The stock data consumed by `_build_watchlist_candidates`; numeric
features are exact rationals, `none` models Python `None`. -/
structure Stock where
  symbol : String
  name : String
  current_price : ℚ
  change_percent : ℚ
  change_1w : Option ℚ
  change_1m : Option ℚ
  rsi_14 : Option ℚ
  volume_ratio : Option ℚ
  trend : String
  support_levels : List ℚ
  resistance_levels : List ℚ
deriving Repr, DecidableEq

/-- A news item as consumed by the V3 analyzer. -/
structure NewsItem where
  source : String
  title : String
  summary : String
  related_tickers : List String
deriving Repr, DecidableEq

/-- An earnings-calendar event (only the symbol is consulted here). -/
structure EarningsEvent where
  symbol : String
deriving Repr, DecidableEq

/-- `_near_level` (lines 317-327): levels are numeric in the model, so
the `float(level)` coercion never fails; Python truthiness of `price`
and `lvl` is the `≠ 0` test. -/
def near_level (price : ℚ) (levels : List ℚ) (threshold : ℚ) : Bool :=
  if price = 0 ∨ levels = [] then false
  else levels.any (fun lvl => lvl ≠ 0 && pyabs (price - lvl) / lvl ≤ threshold)

/-- A watchlist candidate row (display-only string fields of the
Python dict are kept as their numeric sources; `none` models the `""`
placeholder written when the feature is falsy). -/
structure WCandidate where
  symbol : String
  name : String
  price : ℚ
  change_percent : ℚ
  change_1w : Option ℚ
  change_1m : Option ℚ
  rsi : Option ℚ
  trend : String
  reasons : List String
  score : ℕ
deriving Repr, DecidableEq

/-- One `if cond: reasons.append(str); score += w` block. -/
def condStep (cond : Bool) (str : String) (w : ℕ) (acc : List String × ℕ) :
    List String × ℕ :=
  if cond then (acc.1 ++ [str], acc.2 + w) else acc

/-- The RSI block (lines 142-147): guarded by Python truthiness of
`rsi_14`, then overbought / oversold, mutually exclusive. -/
def rsiStep (rsi : Option ℚ) (acc : List String × ℕ) : List String × ℕ :=
  match rsi with
  | none => acc
  | some r =>
    if r ≠ 0 then
      if 70 ≤ r then (acc.1 ++ ["RSI " ++ fmt0 r ++ " 超買"], acc.2 + 1)
      else if r ≤ 30 then (acc.1 ++ ["RSI " ++ fmt0 r ++ " 超賣"], acc.2 + 1)
      else acc
    else acc

/-- Python truthiness of an optional number. -/
def truthyQ : Option ℚ → Bool
  | none => false
  | some q => q ≠ 0

/-- `stock.symbol in earnings_symbols` (line 130). -/
def earnCond (es : List String) (s : Stock) : Bool := s.symbol ∈ es

/-- `stock.symbol in news_symbols` (line 133). -/
def newsCond (ns : List String) (s : Stock) : Bool := s.symbol ∈ ns

/-- `abs(stock.change_percent) >= 2` (line 136). -/
def dailyCond (s : Stock) : Bool := 2 ≤ pyabs s.change_percent

/-- `stock.change_1w and abs(stock.change_1w) >= 5` (line 139). -/
def weeklyCond (s : Stock) : Bool :=
  truthyQ s.change_1w && 5 ≤ pyabs ((s.change_1w).getD 0)

/-- `stock.volume_ratio and stock.volume_ratio >= 1.5` (line 149). -/
def volumeCond (s : Stock) : Bool :=
  truthyQ s.volume_ratio && 3/2 ≤ (s.volume_ratio).getD 0

/-- `stock.support_levels` truthy and `_near_level(...)` (lines
153-154). -/
def supportCond (s : Stock) : Bool :=
  s.support_levels ≠ [] &&
    near_level s.current_price s.support_levels (2/100)

/-- `stock.resistance_levels` truthy and `_near_level(...)` (lines
157-158). -/
def resistCond (s : Stock) : Bool :=
  s.resistance_levels ≠ [] &&
    near_level s.current_price s.resistance_levels (2/100)

/-- The reasons/score accumulation of the candidate loop (lines
127-160). -/
def candAcc (earnSyms newsSyms : List String) (s : Stock) :
    List String × ℕ :=
  let acc : List String × ℕ := ([], 0)
  let acc := condStep (earnCond earnSyms s) "今日財報" 3 acc
  let acc := condStep (newsCond newsSyms s) "今日新聞提及" 2 acc
  let acc := condStep (dailyCond s)
    ("單日波動 " ++ fmtPlus2 s.change_percent ++ "%") 1 acc
  let acc := condStep (weeklyCond s)
    ("近一週 " ++ fmtPlus2 ((s.change_1w).getD 0) ++ "%") 1 acc
  let acc := rsiStep s.rsi_14 acc
  let acc := condStep (volumeCond s)
    ("成交量放大 " ++ fmt2 ((s.volume_ratio).getD 0) ++ "x") 1 acc
  let acc := condStep (supportCond s) "接近支撐位" 1 acc
  let acc := condStep (resistCond s) "接近壓力位" 1 acc
  acc

/-- The body of the candidate loop of `_build_watchlist_candidates`
(lines 126-178) for one stock. -/
def buildCand (earnSyms newsSyms : List String) (s : Stock) :
    Option WCandidate :=
  let acc := candAcc earnSyms newsSyms s
  if acc.1 = [] then none
  else some
    { symbol := s.symbol,
      name := s.name,
      price := round2 s.current_price,
      change_percent := round2 s.change_percent,
      change_1w := if truthyQ s.change_1w then some (round2 ((s.change_1w).getD 0)) else none,
      change_1m := if truthyQ s.change_1m then some (round2 ((s.change_1m).getD 0)) else none,
      rsi := if truthyQ s.rsi_14 then some ((roundHalfEven ((s.rsi_14).getD 0) : ℚ)) else none,
      trend := s.trend,
      reasons := acc.1,
      score := acc.2 }

/-- `_build_watchlist_candidates` (lines 118-182): build candidates in
stock order, sort by descending (score, |rounded daily change|)
(Python `list.sort` with `reverse=True` is stable, as is insertion
sort), and collect the symbol set (modelled as the list of symbols; the
Python set is used only for membership). -/
def buildWatchlistCandidates (stocks : List Stock) (news_items : List NewsItem)
    (earnings_events : List EarningsEvent) : List WCandidate × List String :=
  let earnSyms := earnings_events.map (fun e => e.symbol)
  let newsSyms := news_items.flatMap (fun i => i.related_tickers)
  let candidates := stocks.filterMap (buildCand earnSyms newsSyms)
  let sorted := List.insertionSort
    (fun c1 c2 : WCandidate =>
      c2.score < c1.score ∨
        (c2.score = c1.score ∧
          pyabs c2.change_percent ≤ pyabs c1.change_percent))
    candidates
  (sorted, sorted.map (fun c => c.symbol))

/-! ### Pre-market V3 analyzer: event-driven discovery -/

/-- Maximal runs of characters satisfying `p` (the reversed accumulator
keeps the current run). -/
def runsGo (p : Char → Bool) (cur : List Char) : List Char → List (List Char)
  | [] => if cur = [] then [] else [cur.reverse]
  | c :: rest =>
    if p c then runsGo p (c :: cur) rest
    else if cur = [] then runsGo p [] rest
    else cur.reverse :: runsGo p [] rest

/-- `[A-Z]{1,5}` tokens: a maximal word-character run that is 1-5
uppercase ASCII letters. -/
def isUpperToken (r : List Char) : Bool :=
  decide (1 ≤ r.length) && decide (r.length ≤ 5) &&
    r.all (fun c => 'A' ≤ c && c ≤ 'Z')

/-- `_extract_ticker_tokens` (lines 330-337). -/
def extract_ticker_tokens (text : String) (univ : List String) :
    List String :=
  if text = "" then []
  else (((runsGo wordChar [] text.data).filter isUpperToken).map
    (fun r => (⟨r⟩ : String))).filter (fun tok => tok ∈ univ)

/-- `_normalize_text` (lines 340-344): lowercase, replace characters
outside `[a-z0-9\s]` by spaces, collapse whitespace, strip. -/
def normalize_text (s : String) : String :=
  let lowered := s.data.map Char.toLower
  let replaced := lowered.map (fun c =>
    if ('a' ≤ c && c ≤ 'z') || ('0' ≤ c && c ≤ '9') || c.isWhitespace then c
    else ' ')
  String.intercalate " "
    ((runsGo (fun c => !c.isWhitespace) [] replaced).map
      (fun r => (⟨r⟩ : String)))

/-- Substring containment over character lists. -/
def isSubstr (pat txt : List Char) : Bool :=
  (List.range (txt.length + 1)).any
    (fun i => (txt.drop i).take pat.length == pat)

/-- The instrument universe consumed by discovery. -/
structure UniverseData where
  tickers : List String
  name_to_ticker : Dict String
  ticker_to_name : Dict String
deriving Repr, DecidableEq

/-- One discovery candidate entry. -/
structure ECandidate where
  symbol : String
  name : String
  headlines : List String
  count : ℕ
deriving Repr, DecidableEq

/-- `candidates.setdefault(...)` followed by count increment and capped
headline append (lines 206-217). -/
def upsertCandidate (u : UniverseData) (title : String)
    (cands : List ECandidate) (tick : String) : List ECandidate :=
  if cands.any (fun e => e.symbol = tick) then
    cands.map (fun e =>
      if e.symbol = tick then
        { e with
          count := e.count + 1,
          headlines :=
            if e.headlines.length < 3 then e.headlines ++ [title]
            else e.headlines }
      else e)
  else
    cands ++
      [{ symbol := tick
         name := (dget u.ticker_to_name tick).getD ""
         headlines := [title]
         count := 1 }]

/-- Processing of one news item (lines 189-217): gather the matched
ticker set (ticker-like tokens of the title plus normalized-name hits),
then fold it into the candidate table, skipping watchlist members and
out-of-universe symbols.  The Python `matched` set is modelled as the
de-duplicated list in discovery order. -/
def processItem (u : UniverseData) (watch : List String)
    (cands : List ECandidate) (item : NewsItem) : List ECandidate :=
  let text := pylower (item.title ++ " " ++ item.summary)
  let normalized := normalize_text text
  let matched := dedupGo []
    (extract_ticker_tokens item.title u.tickers ++
      u.name_to_ticker.filterMap (fun p =>
        if p.1 ≠ "" ∧ isSubstr p.1.data normalized.data then some p.2
        else none))
  matched.foldl (fun cands tick =>
    if tick ∈ watch then cands
    else if tick ∉ u.tickers then cands
    else upsertCandidate u item.title cands tick) cands

/-- `_build_event_driven_candidates` (lines 184-231). -/
def build_event_driven_candidates (news_items : List NewsItem)
    (u : UniverseData) (watchlist_symbols : List String) :
    List ECandidate × List String :=
  if u.tickers = [] then ([], [])
  else
    let cands := news_items.foldl (processItem u watchlist_symbols) []
    let items := List.insertionSort
      (fun a b : ECandidate => b.count ≤ a.count) cands
    (items, items.map (fun i => i.symbol))

/-! ### C3: trigger-rule decomposition of the watchlist score -/

/-- The trigger rules of the watchlist scorer, in evaluation order. -/
inductive TriggerRule where
  | earnings | news | daily | weekly | rsiOver | rsiUnder
  | volume | support | resistance
deriving Repr, DecidableEq

/-- The fixed weight of each rule. -/
def ruleWeight : TriggerRule → ℕ
  | .earnings => 3
  | .news => 2
  | _ => 1

/-- The reason string each fired rule appends. -/
def ruleReason (s : Stock) : TriggerRule → String
  | .earnings => "今日財報"
  | .news => "今日新聞提及"
  | .daily => "單日波動 " ++ fmtPlus2 s.change_percent ++ "%"
  | .weekly => "近一週 " ++ fmtPlus2 ((s.change_1w).getD 0) ++ "%"
  | .rsiOver => "RSI " ++ fmt0 ((s.rsi_14).getD 0) ++ " 超買"
  | .rsiUnder => "RSI " ++ fmt0 ((s.rsi_14).getD 0) ++ " 超賣"
  | .volume => "成交量放大 " ++ fmt2 ((s.volume_ratio).getD 0) ++ "x"
  | .support => "接近支撐位"
  | .resistance => "接近壓力位"

/-- The RSI rules fired (guard and mutual exclusion as in the code). -/
def rsiFired : Option ℚ → List TriggerRule
  | none => []
  | some r =>
    if r ≠ 0 then
      if 70 ≤ r then [TriggerRule.rsiOver]
      else if r ≤ 30 then [TriggerRule.rsiUnder]
      else []
    else []

/-- The rules the code fires for a stock, in evaluation order. -/
def firedRules (es ns : List String) (s : Stock) : List TriggerRule :=
  (if earnCond es s then [TriggerRule.earnings] else []) ++
  (if newsCond ns s then [TriggerRule.news] else []) ++
  (if dailyCond s then [TriggerRule.daily] else []) ++
  (if weeklyCond s then [TriggerRule.weekly] else []) ++
  rsiFired s.rsi_14 ++
  (if volumeCond s then [TriggerRule.volume] else []) ++
  (if supportCond s then [TriggerRule.support] else []) ++
  (if resistCond s then [TriggerRule.resistance] else [])

theorem condStep_eq (cond : Bool) (str : String) (w : ℕ)
    (acc : List String × ℕ) :
    condStep cond str w acc =
      (acc.1 ++ (if cond then [str] else []),
        acc.2 + (if cond then w else 0)) := by
  unfold condStep
  cases cond <;> simp

theorem rsiStep_eq (s : Stock) (acc : List String × ℕ) :
    rsiStep s.rsi_14 acc =
      (acc.1 ++ (rsiFired s.rsi_14).map (ruleReason s),
        acc.2 + ((rsiFired s.rsi_14).map ruleWeight).sum) := by
  cases h : s.rsi_14 with
  | none => simp [rsiStep, rsiFired]
  | some r =>
    simp only [rsiStep, rsiFired]
    split_ifs <;> simp [ruleReason, ruleWeight, h]

theorem map_if_singleton {α β : Type} (f : α → β) (c : Bool) (x : α) :
    (if c then [x] else ([] : List α)).map f =
      if c then [f x] else [] := by
  cases c <;> simp

theorem summap_if_singleton {α : Type} (f : α → ℕ) (c : Bool) (x : α) :
    ((if c then [x] else ([] : List α)).map f).sum =
      if c then f x else 0 := by
  cases c <;> simp

theorem sum_if_singleton (c : Bool) (n : ℕ) :
    (if c then [n] else ([] : List ℕ)).sum = if c then n else 0 := by
  cases c <;> simp

theorem candAcc_eq (es ns : List String) (s : Stock) :
    candAcc es ns s =
      ((firedRules es ns s).map (ruleReason s),
        ((firedRules es ns s).map ruleWeight).sum) := by
  simp only [candAcc, condStep_eq, rsiStep_eq, firedRules,
    List.map_append, List.sum_append, map_if_singleton, summap_if_singleton]
  rw [Prod.mk.injEq]
  constructor
  · simp only [ruleReason, List.append_assoc, List.nil_append]
  · simp only [ruleWeight, List.append_assoc, List.nil_append,
      sum_if_singleton]
    omega

theorem buildCand_eq (es ns : List String) (s : Stock) :
    buildCand es ns s =
      if firedRules es ns s = [] then none
      else some
        { symbol := s.symbol
          name := s.name
          price := round2 s.current_price
          change_percent := round2 s.change_percent
          change_1w :=
            if truthyQ s.change_1w then some (round2 ((s.change_1w).getD 0))
            else none
          change_1m :=
            if truthyQ s.change_1m then some (round2 ((s.change_1m).getD 0))
            else none
          rsi :=
            if truthyQ s.rsi_14 then
              some ((roundHalfEven ((s.rsi_14).getD 0) : ℚ))
            else none
          trend := s.trend
          reasons := (firedRules es ns s).map (ruleReason s)
          score := ((firedRules es ns s).map ruleWeight).sum } := by
  simp only [buildCand, candAcc_eq]
  by_cases hf : firedRules es ns s = []
  · simp [hf]
  · rw [if_neg hf, if_neg (by simpa [List.map_eq_nil_iff] using hf)]

/-- C3 fails as stated: the spec's RSI rule ("RSI ≤ 30 fires +1")
applies to a stock whose RSI is exactly 0, but `if stock.rsi_14:`
treats the value 0.0 as falsy, so the code fires no rule and excludes
the instrument entirely. -/
def specRsiFired (s : Stock) : Bool :=
  match s.rsi_14 with
  | some r => 70 ≤ r ∨ r ≤ 30
  | none => false

/-- A stock with RSI exactly 0 and no other trigger. -/
def zrsStock : Stock :=
  ⟨"ZRS", "ZeroRSI", 10, 0, none, none, some 0, none, "flat", [], []⟩

/-- C3 counterexample: per the claim the RSI-oversold rule fires
(RSI = 0 ≤ 30), so the instrument should appear with score 1; the code
produces an empty candidate list. -/
theorem C3_counterexample :
    specRsiFired zrsStock = true ∧
    (buildWatchlistCandidates [zrsStock] [] []).1 = [] := by
  with_unfolding_all decide

/-- C3 (amended): an instrument enters the ranking iff at least one
trigger rule fired, where the RSI rule additionally requires the RSI
value to be present and non-zero (Python truthiness of `rsi_14`); the
candidate's score is the sum of the fixed weights of exactly the fired
rules and its reasons list is one string per fired rule in
rule-evaluation order.  Membership in the final output equals
membership in the per-stock build, since sorting only permutes. -/
theorem C3_watchlist_scoring (stocks : List Stock) (news : List NewsItem)
    (earnings : List EarningsEvent) :
    (∀ s ∈ stocks,
      match buildCand (earnings.map (fun e => e.symbol))
          (news.flatMap (fun i => i.related_tickers)) s with
      | none => firedRules (earnings.map (fun e => e.symbol))
          (news.flatMap (fun i => i.related_tickers)) s = []
      | some c =>
          firedRules (earnings.map (fun e => e.symbol))
            (news.flatMap (fun i => i.related_tickers)) s ≠ [] ∧
          c.symbol = s.symbol ∧
          c.score = ((firedRules (earnings.map (fun e => e.symbol))
            (news.flatMap (fun i => i.related_tickers)) s).map
              ruleWeight).sum ∧
          c.reasons = (firedRules (earnings.map (fun e => e.symbol))
            (news.flatMap (fun i => i.related_tickers)) s).map
              (ruleReason s)) ∧
    (∀ c, c ∈ (buildWatchlistCandidates stocks news earnings).1 ↔
      c ∈ stocks.filterMap (buildCand (earnings.map (fun e => e.symbol))
        (news.flatMap (fun i => i.related_tickers)))) := by
  constructor
  · intro s _
    rw [buildCand_eq]
    by_cases hf : firedRules (earnings.map (fun e => e.symbol))
        (news.flatMap (fun i => i.related_tickers)) s = []
    · simp [hf]
    · simp [hf]
  · intro c
    simp only [buildWatchlistCandidates]
    exact (List.perm_insertionSort _ _).mem_iff

/-- The spec's worked example: an instrument with only the earnings
trigger and RSI = 75. -/
def exStock : Stock :=
  ⟨"NVDA", "NVIDIA", 100, 0, none, none, some 75, none, "up", [], []⟩

/-- Witness for C3 (amended) at the spec's example: earnings (+3) and
RSI 75 (+1) fire, total 4, reasons in order. -/
theorem C3_watchlist_scoring_witness :
    exStock ∈ [exStock] ∧
    (match buildCand ([(⟨"NVDA"⟩ : EarningsEvent)].map (fun e => e.symbol))
        (([] : List NewsItem).flatMap (fun i => i.related_tickers)) exStock with
      | none => firedRules ([(⟨"NVDA"⟩ : EarningsEvent)].map (fun e => e.symbol))
          (([] : List NewsItem).flatMap (fun i => i.related_tickers)) exStock = []
      | some c =>
          firedRules ([(⟨"NVDA"⟩ : EarningsEvent)].map (fun e => e.symbol))
            (([] : List NewsItem).flatMap (fun i => i.related_tickers)) exStock ≠ [] ∧
          c.symbol = exStock.symbol ∧
          c.score = ((firedRules ([(⟨"NVDA"⟩ : EarningsEvent)].map
              (fun e => e.symbol))
            (([] : List NewsItem).flatMap (fun i => i.related_tickers))
              exStock).map ruleWeight).sum ∧
          c.reasons = (firedRules ([(⟨"NVDA"⟩ : EarningsEvent)].map
              (fun e => e.symbol))
            (([] : List NewsItem).flatMap (fun i => i.related_tickers))
              exStock).map (ruleReason exStock)) ∧
    ((firedRules ["NVDA"] [] exStock).map ruleWeight).sum = 4 ∧
    (firedRules ["NVDA"] [] exStock).map (ruleReason exStock) =
      ["今日財報", "RSI 75 超買"] :=
  ⟨by decide,
    (C3_watchlist_scoring [exStock] [] [⟨"NVDA"⟩]).1 exStock
      (by decide),
    by with_unfolding_all decide, by with_unfolding_all decide⟩

/-! ### C8: disjointness of watchlist and discovery candidates -/

theorem upsert_inv (u : UniverseData) (title : String)
    (cands : List ECandidate) (tick : String) (P : String → Prop)
    (hP : P tick) (hc : ∀ e ∈ cands, P e.symbol) :
    ∀ e ∈ upsertCandidate u title cands tick, P e.symbol := by
  unfold upsertCandidate
  split
  · intro e he
    rw [List.mem_map] at he
    obtain ⟨e', he', heq⟩ := he
    by_cases h : e'.symbol = tick
    · rw [if_pos h] at heq
      rw [← heq]
      exact hc e' he'
    · rw [if_neg h] at heq
      rw [← heq]
      exact hc e' he'
  · intro e he
    rcases List.mem_append.mp he with h | h
    · exact hc e h
    · rw [List.mem_singleton] at h
      rw [h]
      exact hP

theorem foldl_tick_inv (u : UniverseData) (watch : List String)
    (title : String) :
    ∀ (l : List String) (cands : List ECandidate),
      (∀ e ∈ cands, e.symbol ∉ watch) →
      ∀ e ∈ l.foldl (fun cands tick =>
          if tick ∈ watch then cands
          else if tick ∉ u.tickers then cands
          else upsertCandidate u title cands tick) cands,
        e.symbol ∉ watch := by
  intro l
  induction l with
  | nil => intro cands hc; exact hc
  | cons t ts ih =>
    intro cands hc
    rw [List.foldl_cons]
    apply ih
    by_cases h1 : t ∈ watch
    · rw [if_pos h1]; exact hc
    · rw [if_neg h1]
      by_cases h2 : t ∉ u.tickers
      · rw [if_pos h2]; exact hc
      · rw [if_neg h2]
        exact upsert_inv u title cands t (fun x => x ∉ watch) h1 hc

theorem processItem_inv (u : UniverseData) (watch : List String)
    (item : NewsItem) (cands : List ECandidate)
    (hc : ∀ e ∈ cands, e.symbol ∉ watch) :
    ∀ e ∈ processItem u watch cands item, e.symbol ∉ watch := by
  simp only [processItem]
  exact foldl_tick_inv u watch item.title _ cands hc

theorem foldl_news_inv (u : UniverseData) (watch : List String) :
    ∀ (ns : List NewsItem) (cands : List ECandidate),
      (∀ e ∈ cands, e.symbol ∉ watch) →
      ∀ e ∈ ns.foldl (processItem u watch) cands, e.symbol ∉ watch := by
  intro ns
  induction ns with
  | nil => intro cands hc; exact hc
  | cons item items ih =>
    intro cands hc
    rw [List.foldl_cons]
    exact ih _ (processItem_inv u watch item cands hc)

theorem event_symbols_not_watch (news : List NewsItem) (u : UniverseData)
    (watch : List String) :
    ∀ t ∈ (build_event_driven_candidates news u watch).2, t ∉ watch := by
  unfold build_event_driven_candidates
  by_cases hu : u.tickers = []
  · simp [hu]
  · simp only [if_neg hu]
    intro t ht
    rw [List.mem_map] at ht
    obtain ⟨e, he, rfl⟩ := ht
    have hperm := List.perm_insertionSort
      (fun a b : ECandidate => b.count ≤ a.count)
      (news.foldl (processItem u watch) [])
    have he' : e ∈ news.foldl (processItem u watch) [] := hperm.mem_iff.mp he
    exact foldl_news_inv u watch news [] (by simp) e he'

/-- C8: for every ranking call, the symbol set of the event-driven
discovery candidates is disjoint from the symbol set of the
watchlist-scored candidates: discovery skips any symbol already in the
watchlist set regardless of mention count. -/
theorem C8_candidate_sets_disjoint (stocks : List Stock)
    (news : List NewsItem) (earnings : List EarningsEvent)
    (u : UniverseData) :
    ∀ t ∈ (build_event_driven_candidates news u
        (buildWatchlistCandidates stocks news earnings).2).2,
      t ∉ (buildWatchlistCandidates stocks news earnings).2 :=
  fun t ht => event_symbols_not_watch news u
    (buildWatchlistCandidates stocks news earnings).2 t ht

def evStocks : List Stock :=
  [⟨"TSLA", "Tesla", 200, 0, none, none, none, none, "up", [], []⟩]

def evNews : List NewsItem :=
  [⟨"wire", "NVDA and TSLA rally", "nvidia tesla up", ["TSLA"]⟩]

def evEarnings : List EarningsEvent := [⟨"TSLA"⟩]

def evUniv : UniverseData :=
  ⟨["NVDA", "TSLA"], [("tesla", "TSLA"), ("nvidia", "NVDA")],
    [("NVDA", "NVIDIA"), ("TSLA", "Tesla")]⟩

/-- Witness for C8: "NVDA" is discovered (mentioned in the news and not
on the watchlist), "TSLA" is watchlist-scored, and the discovered
symbol is indeed outside the watchlist set. -/
theorem C8_candidate_sets_disjoint_witness :
    "NVDA" ∈ (build_event_driven_candidates evNews evUniv
        (buildWatchlistCandidates evStocks evNews evEarnings).2).2 ∧
    "NVDA" ∉ (buildWatchlistCandidates evStocks evNews evEarnings).2 :=
  ⟨by with_unfolding_all decide,
    C8_candidate_sets_disjoint evStocks evNews evEarnings evUniv "NVDA"
      (by with_unfolding_all decide)⟩

/-! ### C4/C5: pre_market_analyzer section parsing and staged pipeline

Embedding of `PreMarketAnalyzer._generate_layer_0_1` / `_2_3` / `_4_5`
(src/src/analyzers/pre_market_analyzer.py).  Each stage regex is a
case-insensitive literal search: `### Layer k.*?(?=### Layer k+1|$)` with
DOTALL finds the first occurrence of the literal marker and extends lazily
up to the first following occurrence of the next marker, or to the end of
text.  (Python `$` may also match just before a single trailing newline;
since the captured section is immediately `.strip()`-ed, ending at the
true end of text is extensionally identical, which is how we model it.) -/

def strFindGo (pat : List Char) : List Char → Nat → Option Nat
  | [], i => if pat = [] then some i else none
  | c :: rest, i =>
      if pat.isPrefixOf (c :: rest) then some i else strFindGo pat rest (i + 1)

def lowerL (l : List Char) : List Char := l.map Char.toLower

def findCI (pat t : List Char) : Option Nat :=
  strFindGo (lowerL pat) (lowerL t) 0

def isPySpace (c : Char) : Bool :=
  c == ' ' || c == '\t' || c == '\n' || c == '\r' ||
  c == Char.ofNat 11 || c == Char.ofNat 12

def pystripL (l : List Char) : List Char :=
  ((l.dropWhile isPySpace).reverse.dropWhile isPySpace).reverse

def searchSection0 (m0 m1 t : List Char) : List Char :=
  match findCI m0 t with
  | none => []
  | some i =>
      match strFindGo (lowerL m1) ((lowerL t).drop (i + m0.length)) 0 with
      | some k => pystripL ((t.drop i).take (m0.length + k))
      | none => pystripL (t.drop i)

def searchSection1 (m1 t : List Char) : List Char :=
  match findCI m1 t with
  | none => []
  | some j => pystripL (t.drop j)

def splitTake (lit t : List Char) : Option (List Char × List Char) :=
  match strFindGo lit t 0 with
  | none => none
  | some j => some (t.take j, t.drop (j + lit.length))

/-- Three-tier section split of one stage's raw text: regex sections,
else case-sensitive `text.split(lit, 1)`, else the single-blob fallback
`(text, "")`.  The third component is the spec-level `parse_degraded`
marker, true exactly on the single-blob tier. -/
def splitStage (m0 m1 lit t : List Char) : List Char × List Char × Bool :=
  let s0 := searchSection0 m0 m1 t
  let s1 := searchSection1 m1 t
  if s0.isEmpty && s1.isEmpty then
    match splitTake lit t with
    | some (a, b) => (pystripL a, lit ++ pystripL b, false)
    | none => (t, [], true)
  else (s0, s1, false)

def generateLayer01Split (text : String) : String × String × Bool :=
  let p := splitStage "### Layer 0".data "### Layer 1".data "Layer 1".data
    text.data
  (⟨p.1⟩, ⟨p.2.1⟩, p.2.2)

def generateLayer23Split (text : String) : String × String × Bool :=
  let p := splitStage "### Layer 2".data "### Layer 3".data "Layer 3".data
    text.data
  (⟨p.1⟩, ⟨p.2.1⟩, p.2.2)

def generateLayer45Split (text : String) : String × String × Bool :=
  let p := splitStage "### Layer 4".data "### Layer 5".data "Layer 5".data
    text.data
  (⟨p.1⟩, ⟨p.2.1⟩, p.2.2)

def generateLayer01 (r : Except String String) : String × String × Bool :=
  match r with
  | Except.error e => ("生成 Layer 0-1 時發生錯誤: " ++ e, "", true)
  | Except.ok text => generateLayer01Split text

def generateLayer23 (r : Except String String) : String × String × Bool :=
  match r with
  | Except.error e => ("生成 Layer 2-3 時發生錯誤: " ++ e, "", true)
  | Except.ok text => generateLayer23Split text

def generateLayer45 (r : Except String String) : String × String × Bool :=
  match r with
  | Except.error e => ("生成 Layer 4-5 時發生錯誤: " ++ e, "", true)
  | Except.ok text => generateLayer45Split text

def generate_news_summary (r : Except String String) : String :=
  match r with
  | Except.error e => "無法生成新聞摘要: " ++ e
  | Except.ok text => ⟨pystripL text.data⟩

/-- The generation backend: one entry per pipeline stage.  Each entry
takes the upstream section contents the source interpolates into that
stage's prompt and yields either the response text or the message of the
raised exception. -/
structure GenBackend where
  stage01 : String → Except String String
  stage23 : String → String → Except String String
  stage45 : String → String → String → String → Except String String
  newsStage : Except String String

structure LayeredReportResult where
  layer_0 : String
  layer_1 : String
  layer_2 : String
  layer_3 : String
  layer_4 : String
  layer_5 : String
  news_summary : String
deriving DecidableEq

/-- `PreMarketAnalyzer.generate_layered_report`: the five sequential
stages, each consuming the previous stage's sections; `hiddenText` is the
hidden-layer output interpolated into the Layer 0-1 prompt. -/
def generate_layered_report (g : GenBackend) (hiddenText : String) :
    LayeredReportResult :=
  let r01 := generateLayer01 (g.stage01 hiddenText)
  let r23 := generateLayer23 (g.stage23 r01.1 r01.2.1)
  let r45 := generateLayer45 (g.stage45 r01.1 r01.2.1 r23.1 r23.2.1)
  ⟨r01.1, r01.2.1, r23.1, r23.2.1, r45.1, r45.2.1,
    generate_news_summary g.newsStage⟩

/-- C4: section parsing is a total function (never raises), and when the
stage text contains no case-insensitive occurrence of either section
marker and the case-sensitive literal split also finds nothing, the
result is the degraded single blob: `parse_degraded = true`, the entire
raw text in the first section, and the empty string (never null) in the
other section. -/
theorem C4_unmarked_text_degrades_to_blob (m0 m1 lit t : List Char)
    (h0 : findCI m0 t = none) (h1 : findCI m1 t = none)
    (h2 : strFindGo lit t 0 = none) :
    splitStage m0 m1 lit t = (t, [], true) := by
  simp only [splitStage, searchSection0, searchSection1, splitTake, h0, h1,
    h2, List.isEmpty_nil, Bool.and_self, if_true]

/-- Witness for C4 at the Layer 0-1 stage markers on marker-free text. -/
theorem C4_unmarked_text_degrades_to_blob_witness :
    findCI "### Layer 0".data "hello world".data = none ∧
    findCI "### Layer 1".data "hello world".data = none ∧
    strFindGo "Layer 1".data "hello world".data 0 = none ∧
    splitStage "### Layer 0".data "### Layer 1".data "Layer 1".data
      "hello world".data = ("hello world".data, [], true) :=
  ⟨by decide, by decide, by decide,
    C4_unmarked_text_degrades_to_blob _ _ _ _ (by decide) (by decide)
      (by decide)⟩

/-- C5: if a stage's generation call fails, that stage's result is the
short diagnostic string as its sole section content with the
`parse_degraded` marker set, and the pipeline still runs every
downstream stage on the degraded context and always returns a complete
report bundle. -/
theorem C5_failed_stage_never_aborts (g : GenBackend) (h e : String)
    (hfail : g.stage01 h = Except.error e) :
    generateLayer01 (g.stage01 h) =
      ("生成 Layer 0-1 時發生錯誤: " ++ e, "", true) ∧
    generate_layered_report g h =
      (let d := "生成 Layer 0-1 時發生錯誤: " ++ e
       let r23 := generateLayer23 (g.stage23 d "")
       let r45 := generateLayer45 (g.stage45 d "" r23.1 r23.2.1)
       ⟨d, "", r23.1, r23.2.1, r45.1, r45.2.1,
         generate_news_summary g.newsStage⟩) := by
  rw [generate_layered_report, hfail]
  exact ⟨rfl, rfl⟩

def wgb : GenBackend :=
  ⟨fun _ => Except.error "boom",
   fun _ _ => Except.ok "### Layer 2 alpha\n### Layer 3 beta",
   fun _ _ _ _ => Except.error "net down",
   Except.ok "market calm"⟩

/-- Witness for C5: a backend whose Layer 0-1 and Layer 4-5 calls raise
still yields a full bundle; Layer 2-3 and the news summary come through
intact. -/
theorem C5_failed_stage_never_aborts_witness :
    wgb.stage01 "H" = Except.error "boom" ∧
    generate_layered_report wgb "H" =
      ⟨"生成 Layer 0-1 時發生錯誤: boom", "",
        "### Layer 2 alpha", "### Layer 3 beta",
        "生成 Layer 4-5 時發生錯誤: net down", "",
        "market calm"⟩ := by
  refine ⟨rfl, ?_⟩
  rw [(C5_failed_stage_never_aborts wgb "H" "boom" rfl).2]
  decide

/-! ### C6/C7: NotionOutput.get_yesterday_pre_market (src/src/outputs/notion.py)

Dates are modelled as integers counting days from a Monday epoch, so
Python `date.weekday()` is `d % 7` (Monday = 0, Saturday = 5, Sunday = 6).
`prevTradingGo` is the fuel-structural image of the inner while loop
`while days_back < offset: result -= 1; if result.weekday() < 5:
days_back += 1`; the loop takes at most 3 steps per counted trading day,
so the fuel `7 * offset + 7` is never exhausted. -/

def prevTradingGo : Nat → Int → Nat → Nat → Int
  | 0, r, _, _ => r
  | fuel + 1, r, db, off =>
      if db < off then
        if (r - 1) % 7 < 5 then prevTradingGo fuel (r - 1) (db + 1) off
        else prevTradingGo fuel (r - 1) db off
      else r

def get_previous_trading_day (date : Int) (offset : Nat) : Int :=
  prevTradingGo (7 * offset + 7) date 0 offset

/-- Closed form of one while-loop round: the latest weekday strictly
before `d` (at most two consecutive weekend days exist). -/
def prevBiz (d : Int) : Int :=
  if (d - 1) % 7 < 5 then d - 1
  else if (d - 2) % 7 < 5 then d - 2
  else d - 3

def prevBizIter : Nat → Int → Int
  | 0, r => r
  | k + 1, r => prevBizIter k (prevBiz r)

structure YRecord where
  content : String
  available : Bool
  source : String
  fallback_note : String
  date : Option Int
deriving DecidableEq

def fbNote (td : Int) (lb : Nat) : String :=
  "使用 " ++ toString td ++ " 的報告作為參考（" ++ toString lb ++ " 個交易日前）"

/-- The lookback-1..3 retrieval loop of `get_yesterday_pre_market`;
`gc` is the content store (`get_pre_market_content`), empty string
meaning no report for that date.  `date := none` models the empty date
string of the unavailable record. -/
def get_yesterday_pre_market (gc : Int → String) (d : Int) : YRecord :=
  let t1 := get_previous_trading_day d 1
  if gc t1 = "" then
    let t2 := get_previous_trading_day d 2
    if gc t2 = "" then
      let t3 := get_previous_trading_day d 3
      if gc t3 = "" then
        ⟨"", false, "unavailable", "昨日報告不可用，變化判斷基於較長時間框架", none⟩
      else ⟨gc t3, true, "fallback", fbNote t3 3, some t3⟩
    else ⟨gc t2, true, "fallback", fbNote t2 2, some t2⟩
  else ⟨gc t1, true, "notion", "", some t1⟩

def attemptedDates (d : Int) : List Int :=
  [get_previous_trading_day d 1, get_previous_trading_day d 2,
    get_previous_trading_day d 3]

theorem prevTradingGo_succ (fuel : Nat) (r : Int) (db off : Nat) :
    prevTradingGo (fuel + 1) r db off =
      if db < off then
        if (r - 1) % 7 < 5 then prevTradingGo fuel (r - 1) (db + 1) off
        else prevTradingGo fuel (r - 1) db off
      else r := rfl

theorem prevTradingGo_done (fuel : Nat) (r : Int) (db off : Nat)
    (h : ¬ db < off) : prevTradingGo fuel r db off = r := by
  cases fuel with
  | zero => rfl
  | succ n => rw [prevTradingGo_succ, if_neg h]

theorem prevTradingGo_chain (k : Nat) : ∀ (n : Nat) (r : Int) (db off : Nat),
    off - db = k → 3 * k ≤ n →
    prevTradingGo n r db off = prevBizIter k r := by
  induction k with
  | zero =>
    intro n r db off hk _
    rw [prevTradingGo_done n r db off (by omega)]
    rfl
  | succ k ih =>
    intro n r db off hk hn
    obtain ⟨m, rfl⟩ : ∃ m, n = m + 3 := ⟨n - 3, by omega⟩
    have hdb : db < off := by omega
    rw [show m + 3 = m + 2 + 1 from rfl, prevTradingGo_succ, if_pos hdb]
    by_cases c1 : (r - 1) % 7 < 5
    · rw [if_pos c1, ih (m + 2) (r - 1) (db + 1) off (by omega) (by omega)]
      have hpb : prevBiz r = r - 1 := by rw [prevBiz, if_pos c1]
      rw [show prevBizIter (k + 1) r = prevBizIter k (prevBiz r) from rfl, hpb]
    · rw [if_neg c1, show m + 2 = m + 1 + 1 from rfl, prevTradingGo_succ,
        if_pos hdb]
      by_cases c2 : (r - 1 - 1) % 7 < 5
      · rw [if_pos c2, ih (m + 1) (r - 1 - 1) (db + 1) off (by omega)
          (by omega)]
        have hpb : prevBiz r = r - 1 - 1 := by
          rw [prevBiz, if_neg c1, if_pos (show (r - 2) % 7 < 5 by omega)]
          omega
        rw [show prevBizIter (k + 1) r = prevBizIter k (prevBiz r) from rfl,
          hpb]
      · rw [if_neg c2, prevTradingGo_succ, if_pos hdb]
        have c3 : (r - 1 - 1 - 1) % 7 < 5 := by omega
        rw [if_pos c3, ih m (r - 1 - 1 - 1) (db + 1) off (by omega)
          (by omega)]
        have hpb : prevBiz r = r - 1 - 1 - 1 := by
          rw [prevBiz, if_neg c1, if_neg (show ¬ (r - 2) % 7 < 5 by omega)]
          omega
        rw [show prevBizIter (k + 1) r = prevBizIter k (prevBiz r) from rfl,
          hpb]

theorem get_previous_trading_day_eq (d : Int) (off : Nat) :
    get_previous_trading_day d off = prevBizIter off d :=
  prevTradingGo_chain off (7 * off + 7) d 0 off (by omega) (by omega)

theorem prevBiz_weekday (d : Int) : prevBiz d % 7 < 5 := by
  rw [prevBiz]
  split_ifs with h1 h2 <;> omega

theorem prevBizIter_weekday : ∀ (k : Nat) (d : Int),
    prevBizIter (k + 1) d % 7 < 5 := by
  intro k
  induction k with
  | zero => intro d; exact prevBiz_weekday d
  | succ k2 ih => intro d; exact ih (prevBiz d)

theorem fbNote_ne (t : Int) (lb : Nat) : fbNote t lb ≠ "" := by
  intro h
  have hl := congrArg String.length h
  rw [fbNote] at hl
  rw [String.length_append, String.length_append, String.length_append,
    String.length_append] at hl
  have h1 : ("使用 " : String).length = 3 := rfl
  have h2 : ("" : String).length = 0 := rfl
  omega

/-- C7: every date the resolver attempts to retrieve is a weekday
(`% 7 < 5`, never Saturday or Sunday); the attempted dates are exactly
the 1-, 2- and 3-trading-day predecessors (so at most three attempts,
and the store is consulted on no other date); and from a Monday
(`d % 7 = 0`) the first attempted date is the preceding Friday `d - 3`. -/
theorem C7_attempted_dates_weekdays (d : Int) :
    (∀ t ∈ attemptedDates d, t % 7 < 5) ∧
    attemptedDates d = [prevBizIter 1 d, prevBizIter 2 d, prevBizIter 3 d] ∧
    (∀ gc gj : Int → String,
      (∀ t ∈ attemptedDates d, gc t = gj t) →
      get_yesterday_pre_market gc d = get_yesterday_pre_market gj d) ∧
    (d % 7 = 0 → get_previous_trading_day d 1 = d - 3) := by
  refine ⟨?_, ?_, ?_, ?_⟩
  · intro t ht
    simp only [attemptedDates, get_previous_trading_day_eq, List.mem_cons,
      List.mem_singleton, List.not_mem_nil, or_false] at ht
    rcases ht with h | h | h
    · rw [h]; exact prevBizIter_weekday 0 d
    · rw [h]; exact prevBizIter_weekday 1 d
    · rw [h]; exact prevBizIter_weekday 2 d
  · simp only [attemptedDates, get_previous_trading_day_eq]
  · intro gc gj hg
    have e1 := hg (get_previous_trading_day d 1) (by simp [attemptedDates])
    have e2 := hg (get_previous_trading_day d 2) (by simp [attemptedDates])
    have e3 := hg (get_previous_trading_day d 3) (by simp [attemptedDates])
    simp only [get_yesterday_pre_market, e1, e2, e3]
  · intro h0
    rw [get_previous_trading_day_eq,
      show prevBizIter 1 d = prevBiz d from rfl, prevBiz,
      if_neg (show ¬ (d - 1) % 7 < 5 by omega),
      if_neg (show ¬ (d - 2) % 7 < 5 by omega)]

/-- Witness for C7 at the Monday `d = 0`: the first attempted date is
the Friday `-3`, and it is a weekday. -/
theorem C7_attempted_dates_weekdays_witness :
    get_previous_trading_day 0 1 = -3 ∧
    get_previous_trading_day 0 1 % 7 < 5 :=
  ⟨(C7_attempted_dates_weekdays 0).2.2.2 (by decide),
    (C7_attempted_dates_weekdays 0).1 (get_previous_trading_day 0 1)
      (by simp [attemptedDates])⟩

/-- C6: the resolver returns available=true with source "notion" (the
spec's `primary`) when the first attempted trading day has content;
available=true with source "fallback" and a non-empty note when only the
second or third attempt has content; and available=false with source
"unavailable" and the fixed explanatory note when all three attempts are
empty. -/
theorem C6_previous_content_resolution (gc : Int → String) (d : Int) :
    (gc (get_previous_trading_day d 1) ≠ "" →
      get_yesterday_pre_market gc d =
        ⟨gc (get_previous_trading_day d 1), true, "notion", "",
          some (get_previous_trading_day d 1)⟩) ∧
    (gc (get_previous_trading_day d 1) = "" →
      gc (get_previous_trading_day d 2) ≠ "" →
      get_yesterday_pre_market gc d =
        ⟨gc (get_previous_trading_day d 2), true, "fallback",
          fbNote (get_previous_trading_day d 2) 2,
          some (get_previous_trading_day d 2)⟩ ∧
      fbNote (get_previous_trading_day d 2) 2 ≠ "") ∧
    (gc (get_previous_trading_day d 1) = "" →
      gc (get_previous_trading_day d 2) = "" →
      gc (get_previous_trading_day d 3) ≠ "" →
      get_yesterday_pre_market gc d =
        ⟨gc (get_previous_trading_day d 3), true, "fallback",
          fbNote (get_previous_trading_day d 3) 3,
          some (get_previous_trading_day d 3)⟩ ∧
      fbNote (get_previous_trading_day d 3) 3 ≠ "") ∧
    (gc (get_previous_trading_day d 1) = "" →
      gc (get_previous_trading_day d 2) = "" →
      gc (get_previous_trading_day d 3) = "" →
      get_yesterday_pre_market gc d =
        ⟨"", false, "unavailable",
          "昨日報告不可用，變化判斷基於較長時間框架", none⟩) := by
  refine ⟨?_, ?_, ?_, ?_⟩
  · intro h1
    simp only [get_yesterday_pre_market, if_neg h1]
  · intro h1 h2
    simp only [get_yesterday_pre_market, if_pos h1, if_neg h2]
    exact ⟨trivial, fbNote_ne _ _⟩
  · intro h1 h2 h3
    simp only [get_yesterday_pre_market, if_pos h1, if_pos h2, if_neg h3]
    exact ⟨trivial, fbNote_ne _ _⟩
  · intro h1 h2 h3
    simp only [get_yesterday_pre_market, if_pos h1, if_pos h2, if_pos h3]

def wgc : Int → String := fun t => if t = 0 then "old report" else ""

/-- Witness for C6: from Wednesday `d = 2` with content only on Monday
`0` (two trading days back), the resolver lands in the fallback case. -/
theorem C6_previous_content_resolution_witness :
    get_yesterday_pre_market wgc 2 =
      ⟨wgc (get_previous_trading_day 2 2), true, "fallback",
        fbNote (get_previous_trading_day 2 2) 2,
        some (get_previous_trading_day 2 2)⟩ ∧
    fbNote (get_previous_trading_day 2 2) 2 ≠ "" :=
  (C6_previous_content_resolution wgc 2).2.1 (by decide) (by decide)

end DailyReport
